import Mathlib

/-!
# Verification of the Summa Theologica HTML parser

A shallow embedding of `src/lib/summa/parser.ts` and the data loader
(`loadQuestion` and friends).  The parser works by applying a fixed set of
JavaScript regular expressions to the raw HTML text; each regex is embedded
here as a dedicated scanning function over `List Char` whose behaviour on the
relevant pattern (leftmost match, greedy/lazy quantifiers, case-insensitive
flag, global replacement) is reproduced exactly.  Strings are modelled as
their character lists; JavaScript `number` question indices are modelled as
`Int` (article and objection ordinals come from `parseInt` of `\d+` captures
and are therefore `Nat`).
-/

namespace Summa

/-! ## Character classes and elementary scanning -/

/-- The `\s` character class of the source regexes (ASCII portion), also the
whitespace set used for `String.prototype.trim`. -/
def sChar (c : Char) : Bool :=
  c = ' ' || c = '\t' || c = '\n' || c = '\r' || c = '\x0b' || c = '\x0c'

/-- Horizontal whitespace, the `[ \t]` class of `cleanText`. -/
def hwChar (c : Char) : Bool :=
  c = ' ' || c = '\t'

/-- ASCII lower-casing by code point, used for the `/i` regex flag. -/
def lcn (c : Char) : Nat :=
  if 65 ≤ c.toNat ∧ c.toNat ≤ 90 then c.toNat + 32 else c.toNat

/-- Case-insensitive "the first list starts the second" test. -/
def ciPre : List Char → List Char → Bool
  | [], _ => true
  | _ :: _, [] => false
  | p :: ps, c :: cs => (lcn p = lcn c) && ciPre ps cs

/-- Case-sensitive "the first list starts the second" test. -/
def litPre : List Char → List Char → Bool
  | [], _ => true
  | _ :: _, [] => false
  | p :: ps, c :: cs => (p = c) && litPre ps cs

/-- Does a case-insensitive occurrence of `pat` appear anywhere in the text? -/
def containsCi (pat : List Char) : List Char → Bool
  | [] => ciPre pat []
  | c :: cs => ciPre pat (c :: cs) || containsCi pat cs

/-- Split at the first case-insensitive occurrence of `pat`:
`(text before the occurrence, suffix beginning with the occurrence)`. -/
def findCi (pat : List Char) : List Char → Option (List Char × List Char)
  | [] => if ciPre pat [] then some ([], []) else none
  | c :: cs =>
    if ciPre pat (c :: cs) then some ([], c :: cs)
    else
      match findCi pat cs with
      | some (b, r) => some (c :: b, r)
      | none => none

/-- Split at the first suffix satisfying `stop`:
`(text before it, that suffix)`; the whole text when none does. -/
def splitAtStop (stop : List Char → Bool) : List Char → List Char × List Char
  | [] => ([], [])
  | c :: cs =>
    if stop (c :: cs) then ([], c :: cs)
    else
      let p := splitAtStop stop cs
      (c :: p.1, p.2)

/-! ## `cleanText`

`cleanText` chains global regex replacements; each pass below scans left to
right, replaces a match and resumes after it, otherwise advances one
character — exactly the semantics of `String.prototype.replace` with `/g`. -/

/-- A match of `<br\s*\/?>` at the head: the remainder after it.  The `\s*`
is greedy; neither `/` nor `>` is whitespace, so maximal munch is exact. -/
def brAt (cs : List Char) : Option (List Char) :=
  if ciPre "<br".toList cs then
    match (cs.drop 3).dropWhile sChar with
    | '/' :: '>' :: t => some t
    | '>' :: t => some t
    | _ => none
  else none

/-- Global `/<br\s*\/?>/gi` → `"\n"`.  All global replacement passes are
written with a step budget (`fuel`) so that they stay structurally
recursive; every step consumes at least one input character, so a budget of
`length + 1` reproduces the unbounded scan exactly. -/
def replBrF : Nat → List Char → List Char
  | 0, l => l
  | _ + 1, [] => []
  | fuel + 1, c :: cs =>
    match brAt (c :: cs) with
    | some t => '\n' :: replBrF fuel t
    | none => c :: replBrF fuel cs

def replBr (l : List Char) : List Char :=
  replBrF (l.length + 1) l

/-- A match of `tag[^>]*>` at the head (`tag` the literal opening, matched
case-insensitively): the remainder after the closing `>`. -/
def openTagAt (tag : List Char) (cs : List Char) : Option (List Char) :=
  if ciPre tag cs then
    let r := cs.drop tag.length
    let u := r.takeWhile (fun c => c ≠ '>')
    if u.length < r.length then some (r.drop (u.length + 1)) else none
  else none

/-- Global `/<p[^>]*>/gi` → `"\n\n"`. -/
def replPOpenF : Nat → List Char → List Char
  | 0, l => l
  | _ + 1, [] => []
  | fuel + 1, c :: cs =>
    match openTagAt "<p".toList (c :: cs) with
    | some t => '\n' :: '\n' :: replPOpenF fuel t
    | none => c :: replPOpenF fuel cs

def replPOpen (l : List Char) : List Char :=
  replPOpenF (l.length + 1) l

/-- Global `/<\/p>/gi` → `""`. -/
def replPCloseF : Nat → List Char → List Char
  | 0, l => l
  | _ + 1, [] => []
  | fuel + 1, c :: cs =>
    if ciPre "</p>".toList (c :: cs) then replPCloseF fuel (cs.drop 3)
    else c :: replPCloseF fuel cs

def replPClose (l : List Char) : List Char :=
  replPCloseF (l.length + 1) l

/-- A match of `<[^>]+>` at the head: the remainder after the `>`.
`[^>]+` requires at least one character between the brackets. -/
def anyTagAt (cs : List Char) : Option (List Char) :=
  match cs with
  | '<' :: r =>
    let u := r.takeWhile (fun c => c ≠ '>')
    if u.length = 0 then none
    else if u.length < r.length then some (r.drop (u.length + 1)) else none
  | _ => none

/-- Global `/<[^>]+>/g` → `""`. -/
def replTagsF : Nat → List Char → List Char
  | 0, l => l
  | _ + 1, [] => []
  | fuel + 1, c :: cs =>
    match anyTagAt (c :: cs) with
    | some t => replTagsF fuel t
    | none => c :: replTagsF fuel cs

def replTags (l : List Char) : List Char :=
  replTagsF (l.length + 1) l

/-- Global case-sensitive literal replacement (the entity-decoding passes
carry no `/i` flag). -/
def replLitF (pat rep : List Char) : Nat → List Char → List Char
  | 0, l => l
  | _ + 1, [] => []
  | fuel + 1, c :: cs =>
    if litPre pat (c :: cs) && !pat.isEmpty then
      rep ++ replLitF pat rep fuel ((c :: cs).drop pat.length)
    else c :: replLitF pat rep fuel cs

def replLit (pat rep : List Char) (l : List Char) : List Char :=
  replLitF pat rep (l.length + 1) l

/-- The entity-decoding passes of `cleanText`, in source order. -/
def decodeEntities (l : List Char) : List Char :=
  let l := replLit "&nbsp;".toList [' '] l
  let l := replLit "&mdash;".toList ['—'] l
  let l := replLit "&ndash;".toList ['–'] l
  let l := replLit "&ldquo;".toList ['“'] l
  let l := replLit "&rdquo;".toList ['”'] l
  let l := replLit "&lsquo;".toList ['‘'] l
  let l := replLit "&rsquo;".toList ['’'] l
  let l := replLit "&amp;".toList ['&'] l
  let l := replLit "&lt;".toList ['<'] l
  let l := replLit "&gt;".toList ['>'] l
  let l := replLit "&#8212;".toList ['—'] l
  let l := replLit "&#8217;".toList ['’'] l
  let l := replLit "&#8220;".toList ['“'] l
  let l := replLit "&#8221;".toList ['”'] l
  l

/-- Index (0-based) just past the last `'\n'` of `w`, or `none`. -/
def lastNlEnd (w : List Char) : Option Nat :=
  match w with
  | [] => none
  | c :: cs =>
    match lastNlEnd cs with
    | some k => some (k + 1)
    | none => if c = '\n' then some 1 else none

/-- Number of `'\n'` characters in a list. -/
def nlCount (w : List Char) : Nat :=
  w.foldr (fun c n => if c = '\n' then n + 1 else n) 0

/-- The extent of a `\n\s*\n\s*\n` match whose first `\n` was just consumed:
both `\s*` are greedy, so the match runs exactly through the *last* newline
of the maximal whitespace run that follows, provided that run holds at least
two more newlines.  Returns the remainder after that last newline. -/
def nl3Extent (cs : List Char) : Option (List Char) :=
  let w := cs.takeWhile sChar
  if 2 ≤ nlCount w then
    match lastNlEnd w with
    | some k => some (cs.drop k)
    | none => none
  else none

/-- Global `/\n\s*\n\s*\n/g` → `"\n\n"`. -/
def replNl3F : Nat → List Char → List Char
  | 0, l => l
  | _ + 1, [] => []
  | fuel + 1, c :: cs =>
    if c = '\n' then
      match nl3Extent cs with
      | some t => '\n' :: '\n' :: replNl3F fuel t
      | none => '\n' :: replNl3F fuel cs
    else c :: replNl3F fuel cs

def replNl3 (l : List Char) : List Char :=
  replNl3F (l.length + 1) l

/-- Global `/[ \t]+/g` → `" "`. -/
def replHwsF : Nat → List Char → List Char
  | 0, l => l
  | _ + 1, [] => []
  | fuel + 1, c :: cs =>
    if hwChar c then ' ' :: replHwsF fuel (cs.dropWhile hwChar)
    else c :: replHwsF fuel cs

def replHws (l : List Char) : List Char :=
  replHwsF (l.length + 1) l

/-- Right trim: drop trailing whitespace. -/
def trimRight : List Char → List Char
  | [] => []
  | c :: cs =>
    match trimRight cs with
    | [] => if sChar c then [] else [c]
    | t => c :: t

/-- `String.prototype.trim`. -/
def trimWs (l : List Char) : List Char :=
  trimRight (l.dropWhile sChar)

/-- The `cleanText` pipeline of the source, pass for pass. -/
def cleanTextL (l : List Char) : List Char :=
  trimWs (replHws (replNl3 (decodeEntities
    (replTags (replPClose (replPOpen (replBr l)))))))

/-- `cleanText`: strip tags, decode the fixed entity set, normalize
whitespace. -/
def cleanText (s : String) : String :=
  String.mk (cleanTextL s.toList)

/-- Three consecutive newline characters occur somewhere in the text. -/
def hasTripleNl : List Char → Bool
  | a :: b :: c :: t =>
    (a = '\n' && b = '\n' && c = '\n') || hasTripleNl (b :: c :: t)
  | _ => false

/-- Two adjacent horizontal whitespace characters occur somewhere. -/
def hasDoubleHw : List Char → Bool
  | a :: b :: t => (hwChar a && hwChar b) || hasDoubleHw (b :: t)
  | _ => false

/-- Neither the first nor the last character is whitespace. -/
def edgeWsFree (l : List Char) : Bool :=
  (match l.head? with
   | some c => !sChar c
   | none => true) &&
  (match l.getLast? with
   | some c => !sChar c
   | none => true)

/-- Does a case-sensitive occurrence of `pat` appear anywhere? -/
def containsLit (pat : List Char) : List Char → Bool
  | [] => litPre pat []
  | c :: cs => litPre pat (c :: cs) || containsLit pat cs

/-- The named character references `cleanText` decodes (the numeric ones
start with `#`, which no alphabetic entity name contains). -/
def decodedEntityNames : List String :=
  ["nbsp", "mdash", "ndash", "ldquo", "rdquo", "lsquo", "rsquo",
   "amp", "lt", "gt"]

/-! ## Data model -/

structure BilingualText where
  latin : String
  english : String
deriving Repr, DecidableEq

/-- An objection or a reply: article-local ordinal plus bilingual text. -/
structure NumberedText where
  number : Nat
  latin : String
  english : String
deriving Repr, DecidableEq

structure SummaArticle where
  part : String
  question : Int
  article : Nat
  title : String
  thesis : BilingualText
  objections : List NumberedText
  sedContra : BilingualText
  respondeo : BilingualText
  replies : List NumberedText
deriving Repr, DecidableEq

structure SummaQuestion where
  part : String
  question : Int
  title : String
  prologue : BilingualText
  articles : List SummaArticle
deriving Repr, DecidableEq

/-! ## `extractBilingualContent`

Three tiers, first success wins: a `<tr>` row split at `<td` boundaries, a
direct two-`<td>` match, and an English-only fallback. -/

/-- Try a per-position attempt at every suffix, left to right (the regex
engine's advancing start position); first success wins. -/
def scanFirst {α} (f : List Char → Option α) : List Char → Option α
  | [] => f []
  | c :: cs =>
    match f (c :: cs) with
    | some a => some a
    | none => scanFirst f cs

/-- Does the per-position test hold at some suffix? -/
def anyPos (f : List Char → Bool) : List Char → Bool
  | [] => f []
  | c :: cs => f (c :: cs) || anyPos f cs

/-- `/<tr[^>]*>([\s\S]*?)(?:<\/tr>|(?=<tr)|$)/i` at one position: the row
content runs lazily up to the first `</tr>`, the next `<tr`, or the end. -/
def trRowAt (t : List Char) : Option (List Char) :=
  match openTagAt "<tr".toList t with
  | some rest =>
    some (splitAtStop
      (fun u => ciPre "</tr>".toList u || ciPre "<tr".toList u) rest).1
  | none => none

/-- `rowContent.split(/<td[^>]*>/i)`. -/
def tdSplitF : Nat → List Char → List (List Char)
  | 0, l => [l]
  | _ + 1, [] => [[]]
  | fuel + 1, c :: cs =>
    match openTagAt "<td".toList (c :: cs) with
    | some rest => [] :: tdSplitF fuel rest
    | none =>
      match tdSplitF fuel cs with
      | [] => [[c]]
      | s :: ss => (c :: s) :: ss

def tdSplit (l : List Char) : List (List Char) :=
  tdSplitF (l.length + 1) l

/-- `part.replace(/<\/td>.*/i, '')`: drop the first `</td>` and the rest of
its line (the dot does not cross a line terminator). -/
def stripTdClose (p : List Char) : List Char :=
  match findCi "</td>".toList p with
  | some (before, suf) =>
    before ++ (suf.drop 5).dropWhile (fun c => c ≠ '\n' && c ≠ '\r')
  | none => p

/-- Tier 1: the tabular row split.  Succeeds only when the row yields two
non-blank cells that both normalize to non-empty text. -/
def tier1 (html : List Char) : Option BilingualText :=
  match scanFirst trRowAt html with
  | none => none
  | some row =>
    match (tdSplit row).filter (fun p => !(trimWs p).isEmpty) with
    | p0 :: p1 :: _ =>
      let latin := cleanTextL (stripTdClose p0)
      let english := cleanTextL (stripTdClose p1)
      if !latin.isEmpty && !english.isEmpty then
        some ⟨String.mk latin, String.mk english⟩
      else none
    | _ => none

/-- The end of the lazy first group of
`/<td[^>]*>([\s\S]*?)(?:<\/td>)?\s*<td[^>]*>…/`: at each position try, in
order, `</td>` then whitespace then a `<td` tag, or whitespace then a `<td`
tag directly; return `(group 1, remainder after the second tag)`. -/
def g1Scan : List Char → Option (List Char × List Char)
  | [] => none
  | c :: cs =>
    match
      (if ciPre "</td>".toList (c :: cs) then
        openTagAt "<td".toList (((c :: cs).drop 5).dropWhile sChar)
      else none) with
    | some r2 => some ([], r2)
    | none =>
      match openTagAt "<td".toList ((c :: cs).dropWhile sChar) with
      | some r2 => some ([], r2)
      | none =>
        match g1Scan cs with
        | some (g, r2) => some (c :: g, r2)
        | none => none

/-- Tier 2 at one position: the direct
`/<td[^>]*>([\s\S]*?)(?:<\/td>)?\s*<td[^>]*>([\s\S]*?)(?:<\/td>|$)/i` match.
`some (some bt)` on a structural match with both sides non-empty,
`some none` on a structural match that fails the emptiness test (the source
then falls to the tier-3 fallback without retrying), `none` when the regex
does not match here. -/
def tier2At (t : List Char) : Option (Option BilingualText) :=
  match openTagAt "<td".toList t with
  | some rest =>
    match g1Scan rest with
    | some (g1, r2) =>
      let g2 :=
        match findCi "</td>".toList r2 with
        | some (before, _) => before
        | none => r2
      let latin := cleanTextL g1
      let english := cleanTextL g2
      some (if !latin.isEmpty && !english.isEmpty then
        some ⟨String.mk latin, String.mk english⟩
      else none)
    | none => none
  | none => none

/-- Tier 2: the first structural match decides. -/
def tier2 (html : List Char) : Option BilingualText :=
  match scanFirst tier2At html with
  | some r => r
  | none => none

/-- The full cascade of `extractBilingualContent`. -/
def extractBilingualContentL (html : List Char) : BilingualText :=
  match tier1 html with
  | some r => r
  | none =>
    match tier2 html with
    | some r => r
    | none => ⟨"", String.mk (cleanTextL html)⟩

def extractBilingualContent (html : String) : BilingualText :=
  extractBilingualContentL html.toList

/-! ## Structural markers (`<!--Aquin…-->` comments)

Every structural regex has the shape `<!--Aquin[^>]*MID[^>]*-->`.  Since
`[^>]*` cannot cross `>` and `-->` ends in `>`, the close of the comment is
necessarily the *first* `>` after the opening, which the two characters
before it must spell `--`; `MID` must occur inside the text between
(greedily: at its last occurrence, which settles the captured digits). -/

/-- `parseInt(ds, 10)` on a non-empty digit capture. -/
def digitsToNat (ds : List Char) : Nat :=
  ds.foldl (fun n c => n * 10 + (c.toNat - 48)) 0

/-- `<!--Aquin` followed by a body closed at the first `>` as `-->`:
`(body without its trailing "--", remainder after the ">")`. -/
def aquinAt (cs : List Char) : Option (List Char × List Char) :=
  if ciPre "<!--aquin".toList cs then
    let r := cs.drop 9
    let u := r.takeWhile (fun c => c ≠ '>')
    if u.length < r.length then
      match u.reverse with
      | '-' :: '-' :: core => some (core.reverse, r.drop (u.length + 1))
      | _ => none
    else none
  else none

/-- The last position of `core` where `mid` matches (the leading `[^>]*` is
greedy, so of several occurrences the regex commits to the last). -/
def findLastMid {α} (mid : List Char → Option α) : List Char → Option α
  | [] => mid []
  | c :: cs =>
    match findLastMid mid cs with
    | some a => some a
    | none => mid (c :: cs)

/-- A whole `<!--Aquin[^>]*MID[^>]*-->` marker at this position:
`(mid's capture, remainder after the marker)`. -/
def tryMarker {α} (mid : List Char → Option α) (cs : List Char) :
    Option (α × List Char) :=
  match aquinAt cs with
  | some (core, rest) =>
    match findLastMid mid core with
    | some a => some (a, rest)
    | none => none
  | none => none

/-- `A\[(\d+)\]`: captured index and remainder. -/
def artIdx (cs : List Char) : Option (Nat × List Char) :=
  if ciPre "a[".toList cs then
    let r := cs.drop 2
    let ds := r.takeWhile Char.isDigit
    if ds.isEmpty then none
    else
      match r.drop ds.length with
      | ']' :: rest => some (digitsToNat ds, rest)
      | _ => none
  else none

/-- `A\[(\d+)\]\s*Thes\.` -/
def midThes (cs : List Char) : Option Nat :=
  match artIdx cs with
  | some (n, r) =>
    if ciPre "thes.".toList (r.dropWhile sChar) then some n else none
  | none => none

/-- `A\[n\]` for the literal decimal spelling of the article number, as the
source interpolates it into the per-article regexes. -/
def artIdxOf (n : Nat) (cs : List Char) : Option (List Char) :=
  if ciPre "a[".toList cs then
    let r := cs.drop 2
    if litPre (toString n).toList r then
      match r.drop (toString n).length with
      | ']' :: rest => some rest
      | _ => none
    else none
  else none

/-- `A\[n\]\s*Obj\.\s*(\d+)`. -/
def midObjOf (n : Nat) (cs : List Char) : Option Nat :=
  match artIdxOf n cs with
  | some r =>
    let r1 := r.dropWhile sChar
    if ciPre "obj.".toList r1 then
      let ds := ((r1.drop 4).dropWhile sChar).takeWhile Char.isDigit
      if ds.isEmpty then none else some (digitsToNat ds)
    else none
  | none => none

/-- `A\[n\]\s*OTC`. -/
def midOtcOf (n : Nat) (cs : List Char) : Option Unit :=
  match artIdxOf n cs with
  | some r => if ciPre "otc".toList (r.dropWhile sChar) then some () else none
  | none => none

/-- `A\[n\]\s*Body`. -/
def midBodyOf (n : Nat) (cs : List Char) : Option Unit :=
  match artIdxOf n cs with
  | some r => if ciPre "body".toList (r.dropWhile sChar) then some () else none
  | none => none

/-- `A\[n\]\s*R\.O\.\s*(\d+)`. -/
def midRoOf (n : Nat) (cs : List Char) : Option Nat :=
  match artIdxOf n cs with
  | some r =>
    let r1 := r.dropWhile sChar
    if ciPre "r.o.".toList r1 then
      let ds := ((r1.drop 4).dropWhile sChar).takeWhile Char.isDigit
      if ds.isEmpty then none else some (digitsToNat ds)
    else none
  | none => none

/-- `Out\.` (the prologue marker). -/
def midOut (cs : List Char) : Option Unit :=
  if ciPre "out.".toList cs then some () else none

/-- `A\[(\d+)\]\s*(?:Obj\.\s*\d+|Body|OTC)` (the recovery scan). -/
def midRecovery (cs : List Char) : Option Nat :=
  match artIdx cs with
  | some (n, r) =>
    let r1 := r.dropWhile sChar
    if ciPre "obj.".toList r1 then
      if (((r1.drop 4).dropWhile sChar).takeWhile Char.isDigit).isEmpty then
        none
      else some n
    else if ciPre "body".toList r1 then some n
    else if ciPre "otc".toList r1 then some n
    else none
  | none => none

/-- The lookahead `(?=<!--Aquin…)` — just the comment opening. -/
def aquinPre (t : List Char) : Bool :=
  ciPre "<!--aquin".toList t

/-- The lookahead `<!--Aquin[^>]*A\[\d+\]\s*Thes\.`: a comment opening whose
text up to the first `>` (or the end) holds a thesis annotation. -/
def thesisPre (t : List Char) : Bool :=
  ciPre "<!--aquin".toList t &&
    anyPos (fun u => (midThes u).isSome)
      ((t.drop 9).takeWhile (fun c => c ≠ '>'))

/-- The trailing boundary `<hr\s*>\s*<A Name="top"`. -/
def hrTopPre (t : List Char) : Bool :=
  if ciPre "<hr".toList t then
    match (t.drop 3).dropWhile sChar with
    | '>' :: r => ciPre "<a name=\"top\"".toList (r.dropWhile sChar)
    | _ => false
  else false

/-- Lazy content up to the next `<!--Aquin` (exclusive) or the end. -/
def contentToAquin (cs : List Char) : List Char × List Char :=
  splitAtStop aquinPre cs

/-- `matchAll` of the thesis segmentation regex: each match is
`(article number, content up to the next thesis marker / trailing boundary /
end)`; scanning resumes at the content's end. -/
def thesisScan : Nat → List Char → List (Nat × List Char)
  | 0, _ => []
  | _ + 1, [] => []
  | fuel + 1, c :: cs =>
    match tryMarker midThes (c :: cs) with
    | some (n, rest) =>
      let p := splitAtStop (fun t => thesisPre t || hrTopPre t) rest
      (n, p.1) :: thesisScan fuel p.2
    | none => thesisScan fuel cs

/-- `matchAll` of the per-article objection regex. -/
def objScan (n : Nat) : Nat → List Char → List (Nat × List Char)
  | 0, _ => []
  | _ + 1, [] => []
  | fuel + 1, c :: cs =>
    match tryMarker (midObjOf n) (c :: cs) with
    | some (k, rest) =>
      let p := contentToAquin rest
      (k, p.1) :: objScan n fuel p.2
    | none => objScan n fuel cs

/-- `matchAll` of the per-article reply (`R.O.`) regex. -/
def roScan (n : Nat) : Nat → List Char → List (Nat × List Char)
  | 0, _ => []
  | _ + 1, [] => []
  | fuel + 1, c :: cs =>
    match tryMarker (midRoOf n) (c :: cs) with
    | some (k, rest) =>
      let p := contentToAquin rest
      (k, p.1) :: roScan n fuel p.2
    | none => roScan n fuel cs

/-- `matchAll` of the recovery marker scan (whole markers, no content). -/
def recScan : Nat → List Char → List Nat
  | 0, _ => []
  | _ + 1, [] => []
  | fuel + 1, c :: cs =>
    match tryMarker midRecovery (c :: cs) with
    | some (n, rest) => n :: recScan fuel rest
    | none => recScan fuel cs

/-- Non-global `match`: the first whole marker, with its remainder. -/
def firstMarker {α} (mid : List Char → Option α) : List Char → Option (α × List Char)
  | [] => none
  | c :: cs =>
    match tryMarker mid (c :: cs) with
    | some r => some r
    | none => firstMarker mid cs

/-! ## Title extraction -/

/-- `[A-Z][^<]+` with `/i`: a letter then at least one more non-`<`
character, greedily. -/
def treatiseCap : List Char → Option (List Char)
  | [] => none
  | c :: cs =>
    if c.isAlpha then
      let t := cs.takeWhile (fun d => d ≠ '<')
      if t.isEmpty then none else some (c :: t)
    else none

/-- After `TREATISE`: `[^<]*<br>\s*(?:<br>\s*)?` then the capture.  `[^<]*`
cannot cross `<`, so the `<br>` must sit at the first `<`; the optional
second `<br>` is greedy. -/
def treatiseCont (rest : List Char) : Option (List Char) :=
  let v := rest.dropWhile (fun d => d ≠ '<')
  if ciPre "<br>".toList v then
    let s1 := (v.drop 4).dropWhile sChar
    if ciPre "<br>".toList s1 then
      match treatiseCap ((s1.drop 4).dropWhile sChar) with
      | some cap => some cap
      | none => treatiseCap s1
    else treatiseCap s1
  else none

/-- `.*?TREATISE` (lazy, the dot not crossing line terminators) followed by
`treatiseCont`; on continuation failure the engine moves to the next
`TREATISE` occurrence on the same line. -/
def treatiseSeek : List Char → Option (List Char)
  | [] => none
  | c :: cs =>
    match
      (if ciPre "treatise".toList (c :: cs) then
        treatiseCont ((c :: cs).drop 8)
      else none) with
    | some cap => some cap
    | none => if c ≠ '\n' && c ≠ '\r' then treatiseSeek cs else none

/-- `/<h3[^>]*>.*?TREATISE[^<]*<br>\s*(?:<br>\s*)?([A-Z][^<]+)/i`
at one position. -/
def treatiseAt (t : List Char) : Option (List Char) :=
  match openTagAt "<h3".toList t with
  | some rest => treatiseSeek rest
  | none => none

/-- The `[A-Z\s,'():;]` class under `/i`. -/
def topicClass (c : Char) : Bool :=
  c.isAlpha || sChar c || c = ',' || c = '\'' || c = '(' ||
    c = ')' || c = ':' || c = ';'

/-- `(?:\([^)]+\))?\s*<br` after the class run: prefer the parenthetical
(greedy), then require `<br`; returns the parenthetical part of the
capture. -/
def h3TopicAfter (r : List Char) : Option (List Char) :=
  match
    (match r with
     | '(' :: r1 =>
       let inner := r1.takeWhile (fun d => d ≠ ')')
       if inner.isEmpty then none
       else
         match r1.drop inner.length with
         | ')' :: r2 =>
           if ciPre "<br".toList (r2.dropWhile sChar) then
             some ('(' :: (inner ++ [')']))
           else none
         | _ => none
     | _ => none) with
  | some paren => some paren
  | none => if ciPre "<br".toList (r.dropWhile sChar) then some [] else none

/-- Greedy backtracking over the `[A-Z\s,'():;]+` run length, longest
first. -/
def h3TopicTryK (c : Char) (cs : List Char) : Nat → Option (List Char)
  | 0 => none
  | k + 1 =>
    match h3TopicAfter (cs.drop (k + 1)) with
    | some paren => some (c :: (cs.take (k + 1) ++ paren))
    | none => h3TopicTryK c cs k

/-- `[A-Z][A-Z\s,'():;]+(?:\([^)]+\))?` then `\s*<br`. -/
def h3TopicBody : List Char → Option (List Char)
  | [] => none
  | c :: cs =>
    if c.isAlpha then h3TopicTryK c cs (cs.takeWhile topicClass).length
    else none

/-- `/<H3[^>]*>\s*((?:OF\s+)?[A-Z][A-Z\s,'():;]+(?:\([^)]+\))?)\s*<br/i`
at one position; the optional `OF\s+` is greedy, retried without on
failure. -/
def h3TopicAt (t : List Char) : Option (List Char) :=
  match openTagAt "<h3".toList t with
  | some rest =>
    let s0 := rest.dropWhile sChar
    match
      (if ciPre "of".toList s0 then
        let w := (s0.drop 2).takeWhile sChar
        if w.isEmpty then none
        else
          match h3TopicBody ((s0.drop 2).drop w.length) with
          | some cap => some (s0.take 2 ++ (w ++ cap))
          | none => none
      else none) with
    | some cap => some cap
    | none => h3TopicBody s0
  | none => none

/-- `ONE|TWO|…|TEN` (case-insensitive) or `\d+`; the remainder. -/
def numWordAt (r : List Char) : Option (List Char) :=
  match
    ["one".toList, "two".toList, "three".toList, "four".toList,
     "five".toList, "six".toList, "seven".toList, "eight".toList,
     "nine".toList, "ten".toList].find? (fun w => ciPre w r) with
  | some w => some (r.drop w.length)
  | none =>
    let ds := r.takeWhile Char.isDigit
    if ds.isEmpty then none else some (r.drop ds.length)

/-- `\(\s*(?:ONE|…|TEN|\d+)\s*ARTICLE[S]?\s*\)` at one position. -/
def parenCountAt : List Char → Bool
  | '(' :: r =>
    match numWordAt (r.dropWhile sChar) with
    | some r2 =>
      let r3 := r2.dropWhile sChar
      if ciPre "article".toList r3 then
        let r4 := r3.drop 7
        let r5 := if ciPre "s".toList r4 then r4.drop 1 else r4
        match r5.dropWhile sChar with
        | ')' :: _ => true
        | _ => false
      else false
    | none => false
  | _ => false

/-- `/<h3[^>]*>([^<]*\(\s*(?:ONE|…|\d+)\s*ARTICLE[S]?\s*\))[^<]*/i` at one
position: the article-count parenthetical inside the heading's text. -/
def artCountAt (t : List Char) : Bool :=
  match openTagAt "<h3".toList t with
  | some rest => anyPos parenCountAt (rest.takeWhile (fun d => d ≠ '<'))
  | none => false

/-- Does the document have an article-count heading (the recovery pass's
title heuristic)? -/
def hasArtCountHeader (html : List Char) : Bool :=
  anyPos artCountAt html

/-- `/<h3[^>]*>([^<]+)/i` at one position (article titles). -/
def h3TextAt (t : List Char) : Option (List Char) :=
  match openTagAt "<h3".toList t with
  | some rest =>
    let cap := rest.takeWhile (fun d => d ≠ '<')
    if cap.isEmpty then none else some cap
  | none => none

/-- `/<table[^>]*>([\s\S]*?)<\/table>/i` at one position. -/
def tableAt (t : List Char) : Option (List Char) :=
  match openTagAt "<table".toList t with
  | some rest =>
    match findCi "</table>".toList rest with
    | some (before, _) => some before
    | none => none
  | none => none

/-- The question-title cascade: TREATISE heading, then topic heading, then
the synthesized default. -/
def questionTitleL (html : List Char) (questionNum : Int) : List Char :=
  match scanFirst treatiseAt html with
  | some cap => cleanTextL cap
  | none =>
    match scanFirst h3TopicAt html with
    | some cap => cleanTextL cap
    | none => ("Question " ++ toString questionNum).toList

/-! ## Assembly (`parseQuestionFile`) -/

/-- Objections of article `n`, rescanned over the whole document. -/
def objectionsOf (html : List Char) (n : Nat) : List NumberedText :=
  (objScan n (html.length + 1) html).map fun p =>
    let bt := extractBilingualContentL p.2
    ⟨p.1, bt.latin, bt.english⟩

/-- Sed contra (`OTC`) of article `n`. -/
def sedContraOf (html : List Char) (n : Nat) : BilingualText :=
  match firstMarker (midOtcOf n) html with
  | some p => extractBilingualContentL (contentToAquin p.2).1
  | none => ⟨"", ""⟩

/-- Respondeo (`Body`) of article `n`. -/
def respondeoOf (html : List Char) (n : Nat) : BilingualText :=
  match firstMarker (midBodyOf n) html with
  | some p => extractBilingualContentL (contentToAquin p.2).1
  | none => ⟨"", ""⟩

/-- Replies (`R.O.`) of article `n`. -/
def repliesOf (html : List Char) (n : Nat) : List NumberedText :=
  (roScan n (html.length + 1) html).map fun p =>
    let bt := extractBilingualContentL p.2
    ⟨p.1, bt.latin, bt.english⟩

/-- An article discovered through its thesis marker. -/
def thesisArticle (html : List Char) (part : String) (q : Int)
    (n : Nat) (content : List Char) : SummaArticle :=
  { part := part
    question := q
    article := n
    title :=
      match scanFirst h3TextAt content with
      | some cap => String.mk (cleanTextL cap)
      | none => ""
    thesis :=
      match scanFirst tableAt content with
      | some inner => extractBilingualContentL inner
      | none => ⟨"", ""⟩
    objections := objectionsOf html n
    sedContra := sedContraOf html n
    respondeo := respondeoOf html n
    replies := repliesOf html n }

/-- An article recovered from objection/body/OTC markers alone. -/
def recoveryArticle (html : List Char) (part : String) (q : Int)
    (n : Nat) : SummaArticle :=
  { part := part
    question := q
    article := n
    title := if hasArtCountHeader html then "Article " ++ toString n else ""
    thesis := ⟨"", ""⟩
    objections := objectionsOf html n
    sedContra := sedContraOf html n
    respondeo := respondeoOf html n
    replies := repliesOf html n }

/-- First-occurrence deduplication (`Set` insertion order). -/
def dedupFF : Nat → List Nat → List Nat
  | 0, l => l
  | _ + 1, [] => []
  | fuel + 1, n :: ns => n :: dedupFF fuel (ns.filter (fun m => m ≠ n))

def dedupF (l : List Nat) : List Nat :=
  dedupFF (l.length + 1) l

/-- The sort order of the assembler (`(a, b) => a.article - b.article`,
ascending and stable). -/
def artLe (a b : SummaArticle) : Prop :=
  a.article ≤ b.article

instance : DecidableRel artLe := fun a b => Nat.decLe a.article b.article

instance : IsTotal SummaArticle artLe :=
  ⟨fun a b => Nat.le_total a.article b.article⟩

instance : IsTrans SummaArticle artLe :=
  ⟨fun _ _ _ => Nat.le_trans⟩

/-- `parseQuestionFile` over character lists: title and prologue extraction,
thesis-driven segmentation, the recovery pass, and the sorted assembly. -/
def parseQuestionFileL (html : List Char) (part : String)
    (questionNum : Int) : SummaQuestion :=
  let questionTitle := questionTitleL html questionNum
  let prologue :=
    match firstMarker midOut html with
    | some p =>
      extractBilingualContentL
        (splitAtStop (fun t => aquinPre t || ciPre "<hr".toList t) p.2).1
    | none => (⟨"", ""⟩ : BilingualText)
  let thesisMs := thesisScan (html.length + 1) html
  let found := thesisMs.map Prod.fst
  let articles1 :=
    thesisMs.map fun p => thesisArticle html part questionNum p.1 p.2
  let recNums :=
    dedupF ((recScan (html.length + 1) html).filter
      (fun n => !(found.contains n)))
  let articles2 :=
    recNums.map fun n => recoveryArticle html part questionNum n
  { part := part
    question := questionNum
    title := String.mk questionTitle
    prologue := prologue
    articles := (articles1 ++ articles2).insertionSort artLe }

/-- `parseQuestionFile(html, part, questionNum)`. -/
def parseQuestionFile (html part : String) (questionNum : Int) : SummaQuestion :=
  parseQuestionFileL html.toList part questionNum

/-! ## The loader (`loadQuestion`)

The file system is modelled as a partial map from paths to file contents and
the module-level `questionCache` as an explicit association list.  The
`try/catch` of the source around read-and-parse is dead in the model:
`parseQuestionFile` is total, so only the missing-file branch yields
`none`. -/

/-- `question.toString().padStart(3, '0')`. -/
def padStart3 (s : String) : String :=
  String.mk (List.replicate (3 - s.length) '0') ++ s

/-- The loader's `getQuestionFilePath` (relative to the process's working
directory, which the model leaves implicit). -/
def getQuestionFilePath (part : String) (question : Int) : String :=
  "public/thomas/summa/" ++ part ++ "/" ++ part ++
    padStart3 (toString question) ++ ".html"

abbrev FileSystem : Type :=
  String → Option String

abbrev Cache : Type :=
  List (String × SummaQuestion)

/-- The cache key `` `${part}-${question}` ``. -/
def cacheKey (part : String) (question : Int) : String :=
  part ++ "-" ++ toString question

/-- `loadQuestion`: cached value, else `null` for a missing file, else parse
and cache.  Returns the result together with the updated cache. -/
def loadQuestion (fs : FileSystem) (cache : Cache) (part : String)
    (question : Int) : Option SummaQuestion × Cache :=
  let key := cacheKey part question
  match cache.lookup key with
  | some q => (some q, cache)
  | none =>
    match fs (getQuestionFilePath part question) with
    | none => (none, cache)
    | some html =>
      let parsed := parseQuestionFile html part question
      (some parsed, cache ++ [(key, parsed)])

/-! ## Concrete documents used by the scenario theorems -/

/-- Two thesis markers carrying the same article number. -/
def dupThesisHtml : String :=
  "<!--Aquin.: SMT FP Q[1] A[1] Thes. Par. 1/1-->x<!--Aquin.: SMT FP Q[1] A[1] Thes. Par. 1/1-->y"

/-- A thesis marker followed directly by a bare two-cell row (no enclosing
table element). -/
def bareRowHtml : String :=
  "<!--Aquin.: SMT FP Q[2] A[1] Thes.--><td>Utrum Deus sit</td><td>Whether God exists</td>"

/-- The same row wrapped in a table element. -/
def tableRowHtml : String :=
  "<!--Aquin.: SMT FP Q[2] A[1] Thes.--><table><tr><td>Utrum Deus sit</td><td>Whether God exists</td></tr></table>"

/-- The objection marker of article 3 (question 2) and its comment core:
the text between `<!--Aquin` and `-->`. -/
def objM3 : List Char :=
  "<!--Aquin.: SMT FP Q[2] A[3] Obj. 1 Para. 1/1-->".toList

def objCore3 : List Char :=
  ".: SMT FP Q[2] A[3] Obj. 1 Para. 1/1".toList

/-- The body marker of article 3 and its core. -/
def bodyM3 : List Char :=
  "<!--Aquin.: SMT FP Q[2] A[3] Body Para. 1/2-->".toList

def bodyCore3 : List Char :=
  ".: SMT FP Q[2] A[3] Body Para. 1/2".toList

/-- The duplicated objection-1 marker of article 2 (question 5) and its
core. -/
def objM2 : List Char :=
  "<!--Aquin.: SMT FP Q[5] A[2] Obj. 1-->".toList

def objCore2 : List Char :=
  ".: SMT FP Q[5] A[2] Obj. 1".toList

/-- A recovery-scenario document: only an objection marker and a body marker
for article 3 (no thesis marker), around arbitrary objection and body
texts. -/
def recoveryDoc (o b : String) : String :=
  "<!--Aquin.: SMT FP Q[2] A[3] Obj. 1 Para. 1/1-->" ++ o ++
    ("<!--Aquin.: SMT FP Q[2] A[3] Body Para. 1/2-->" ++ b)

/-- The same objection-1 marker for article 2 twice, around arbitrary
texts. -/
def dupObjDoc (t1 t2 : String) : String :=
  "<!--Aquin.: SMT FP Q[5] A[2] Obj. 1-->" ++ t1 ++
    ("<!--Aquin.: SMT FP Q[5] A[2] Obj. 1-->" ++ t2)

/-- The file system with no files at all. -/
def emptyFs : FileSystem :=
  fun _ => none

/-! ## Elementary length lemmas -/

theorem ciPre_len {p s : List Char} (h : ciPre p s = true) : p.length ≤ s.length := by
  induction p generalizing s with
  | nil => simp
  | cons a ps ih =>
    cases s with
    | nil => simp [ciPre] at h
    | cons b ss =>
      simp only [ciPre, Bool.and_eq_true] at h
      have := ih h.2
      simp only [List.length_cons]
      omega

theorem dropWhile_len (p : Char → Bool) (l : List Char) :
    (l.dropWhile p).length ≤ l.length := by
  induction l with
  | nil => simp [List.dropWhile]
  | cons c cs ih =>
    by_cases h : p c <;> simp [List.dropWhile_cons, h] <;> omega

theorem nl3Extent_len {cs t : List Char} (h : nl3Extent cs = some t) :
    t.length ≤ cs.length := by
  simp only [nl3Extent] at h
  split at h
  · split at h
    · simp only [Option.some.injEq] at h
      subst h
      simp [List.length_drop]
    · simp at h
  · simp at h

/-! ## Lemmas: a document without a scanner's trigger yields nothing -/

theorem openTagAt_none {tag t : List Char} (h : ciPre tag t = false) :
    openTagAt tag t = none := by
  simp [openTagAt, h]

theorem tryMarker_none {α} (mid : List Char → Option α) {t : List Char}
    (h : ciPre "<!--aquin".toList t = false) : tryMarker mid t = none := by
  unfold tryMarker aquinAt
  rw [h]
  rfl

theorem containsCi_cons {pat : List Char} {c : Char} {cs : List Char}
    (h : containsCi pat (c :: cs) = false) :
    ciPre pat (c :: cs) = false ∧ containsCi pat cs = false := by
  simpa [containsCi] using h

theorem scanFirst_none {α} (f : List Char → Option α) (trig : List Char)
    (hf : ∀ t, ciPre trig t = false → f t = none) :
    ∀ l, containsCi trig l = false → scanFirst f l = none
  | [], h => by
    unfold scanFirst
    rw [hf [] (by simpa [containsCi] using h)]
  | c :: cs, h => by
    have h' := containsCi_cons h
    unfold scanFirst
    rw [hf _ h'.1]
    exact scanFirst_none f trig hf cs h'.2

theorem firstMarker_none {α} (mid : List Char → Option α) :
    ∀ l, containsCi "<!--aquin".toList l = false → firstMarker mid l = none
  | [], _ => rfl
  | c :: cs, h => by
    have h' := containsCi_cons h
    unfold firstMarker
    rw [tryMarker_none mid h'.1]
    exact firstMarker_none mid cs h'.2

theorem thesisScan_nil :
    ∀ fuel l, containsCi "<!--aquin".toList l = false → thesisScan fuel l = []
  | 0, _, _ => rfl
  | _ + 1, [], _ => rfl
  | fuel + 1, c :: cs, h => by
    have h' := containsCi_cons h
    unfold thesisScan
    rw [tryMarker_none midThes h'.1]
    exact thesisScan_nil fuel cs h'.2

theorem recScan_nil :
    ∀ fuel l, containsCi "<!--aquin".toList l = false → recScan fuel l = []
  | 0, _, _ => rfl
  | _ + 1, [], _ => rfl
  | fuel + 1, c :: cs, h => by
    have h' := containsCi_cons h
    unfold recScan
    rw [tryMarker_none midRecovery h'.1]
    exact recScan_nil fuel cs h'.2

theorem mk_toList (s : String) : String.mk s.toList = s := rfl

/-- Shared core of the totality/no-markers behaviour: without an `<!--Aquin`
comment or an `<h3` heading anywhere, the parse is the default question. -/
theorem parse_noMarkers_aux (html : List Char) (part : String) (n : Int)
    (h1 : containsCi "<!--aquin".toList html = false)
    (h2 : containsCi "<h3".toList html = false) :
    parseQuestionFileL html part n =
      { part := part, question := n, title := "Question " ++ toString n,
        prologue := ⟨"", ""⟩, articles := [] } := by
  have ht : scanFirst treatiseAt html = none :=
    scanFirst_none treatiseAt "<h3".toList
      (fun t ht' => by unfold treatiseAt; rw [openTagAt_none ht']) html h2
  have hh : scanFirst h3TopicAt html = none :=
    scanFirst_none h3TopicAt "<h3".toList
      (fun t ht' => by unfold h3TopicAt; rw [openTagAt_none ht']) html h2
  have hm : firstMarker midOut html = none := firstMarker_none midOut html h1
  have hs : thesisScan (html.length + 1) html = [] := thesisScan_nil _ html h1
  have hr : recScan (html.length + 1) html = [] := recScan_nil _ html h1
  unfold parseQuestionFileL questionTitleL
  rw [ht, hh, hm, hs, hr]
  rfl

/-! ## The claim theorems -/

set_option maxRecDepth 40000

/-- Claim C1: `parseQuestionFile` is a total function of its three
arguments (it is defined for every `html`, `part` and `n` and, being a plain
function of the model, never raises); on an input without structural markers
— no `<!--Aquin` comment and no `<h3` heading, which covers the empty string
— it returns the question with an empty article sequence, the default title
`"Question n"`, and an empty prologue. -/
theorem parseQuestionFile_total_noMarkers (html part : String) (n : Int)
    (h1 : containsCi "<!--aquin".toList html.toList = false)
    (h2 : containsCi "<h3".toList html.toList = false) :
    parseQuestionFile html part n =
      { part := part, question := n, title := "Question " ++ toString n,
        prologue := ⟨"", ""⟩, articles := [] } :=
  parse_noMarkers_aux html.toList part n h1 h2

/-- Witness for C1 at the empty document. -/
theorem parseQuestionFile_total_noMarkers_witness :
    parseQuestionFile "" "FP" 1 =
      { part := "FP", question := 1, title := "Question 1",
        prologue := ⟨"", ""⟩, articles := [] } :=
  parseQuestionFile_total_noMarkers "" "FP" 1 rfl rfl

/-- Claim C2, counterexample: two thesis markers for article 1 yield two
articles both numbered 1, so the article numbers are neither strictly
ascending nor unique. -/
theorem parse_dupThesis_not_strict :
    ((parseQuestionFile dupThesisHtml "FP" 1).articles.map fun a => a.article)
        = [1, 1] ∧
    ¬ List.Chain' (fun a b : SummaArticle => a.article < b.article)
        (parseQuestionFile dupThesisHtml "FP" 1).articles := by
  constructor
  · rfl
  · intro hc
    have h1 : List.Chain' (fun a b : Nat => a < b)
        ((parseQuestionFile dupThesisHtml "FP" 1).articles.map fun a => a.article) :=
      (List.chain'_map fun a : SummaArticle => a.article).mpr hc
    rw [show ((parseQuestionFile dupThesisHtml "FP" 1).articles.map
        fun a => a.article) = [1, 1] from rfl] at h1
    simp at h1

/-- Claim C2 (amended): the article sequence of every parse result is sorted
in non-decreasing order of article number (adjacent pairs satisfy `≤`;
strictness fails exactly on duplicated thesis markers). -/
theorem parse_articles_sorted (html part : String) (n : Int) :
    List.Chain' artLe (parseQuestionFile html part n).articles := by
  unfold parseQuestionFile parseQuestionFileL
  exact List.Pairwise.chain' (List.sorted_insertionSort artLe _)

/-- Claim C3, counterexample: a thesis marker followed directly by the bare
two-cell row (no `<table>` element) yields an *empty* thesis, not the row's
bilingual pair: the thesis is only read from inside a table element. -/
theorem thesis_bare_row_empty :
    ((parseQuestionFile bareRowHtml "FP" 2).articles.map fun a => a.thesis)
        = [⟨"", ""⟩] ∧
    (⟨"", ""⟩ : BilingualText) ≠ ⟨"Utrum Deus sit", "Whether God exists"⟩ := by
  exact ⟨rfl, by decide⟩

/-- Claim C3 (amended): with the two-cell row wrapped in a `<table>` element
after the thesis marker for article 1, the first article's thesis is exactly
the row's Latin/English pair. -/
theorem thesis_minimal_table :
    ((parseQuestionFile tableRowHtml "FP" 2).articles.map fun a => a.thesis)
        = [⟨"Utrum Deus sit", "Whether God exists"⟩] := rfl

/-- Claim C5: when the cache has no entry and the file system has no file
for the requested key, `loadQuestion` returns the explicit absent result
(`none`, cache unchanged) — never a parsed-but-empty question, and (being a
function of the model) without raising. -/
theorem loadQuestion_missing_none (fs : FileSystem) (cache : Cache)
    (part : String) (q : Int)
    (h1 : cache.lookup (cacheKey part q) = none)
    (h2 : fs (getQuestionFilePath part q) = none) :
    loadQuestion fs cache part q = (none, cache) ∧
    ∀ parsed : SummaQuestion, (loadQuestion fs cache part q).1 ≠ some parsed := by
  have h : loadQuestion fs cache part q = (none, cache) := by
    simp [loadQuestion, h1, h2]
  exact ⟨h, by simp [h]⟩

/-- Witness for C5: question 999 of part FP on an empty file system. -/
theorem loadQuestion_missing_none_witness :
    loadQuestion emptyFs [] "FP" 999 = (none, []) ∧
    ∀ parsed : SummaQuestion,
      (loadQuestion emptyFs [] "FP" 999).1 ≠ some parsed :=
  loadQuestion_missing_none emptyFs [] "FP" 999 rfl rfl

/-- Claim C6, counterexample: a negative question number is *not* rejected:
`loadQuestion` treats it exactly like a missing source file (the path
`FP0-5.html` resolves to nothing) and `parseQuestionFile` accepts it with no
precondition check, so no fail-fast outcome distinct from the recoverable
conditions exists. -/
theorem load_negative_not_failfast :
    loadQuestion emptyFs [] "FP" (-5) = (none, []) ∧
    loadQuestion emptyFs [] "FP" (-5) = loadQuestion emptyFs [] "FP" 999 ∧
    parseQuestionFile "" "FP" (-5) =
      { part := "FP", question := -5, title := "Question -5",
        prologue := ⟨"", ""⟩, articles := [] } :=
  ⟨rfl, rfl, rfl⟩

/-- Claim C6 (amended): a negative question number flows through the
ordinary recoverable paths — the load returns the same absent result as a
missing file, and the parser returns the default question for it — with no
precondition violation anywhere. -/
theorem load_negative_no_precondition (part : String) (q : Int) :
    loadQuestion emptyFs [] part q = (none, []) ∧
    parseQuestionFile "" part q =
      { part := part, question := q, title := "Question " ++ toString q,
        prologue := ⟨"", ""⟩, articles := [] } :=
  ⟨rfl, parse_noMarkers_aux [] part q rfl rfl⟩

/-- Claim C9: `parseQuestionFile` is deterministic — two calls on identical
arguments give structurally identical results (it is a pure function of the
embedding, with no other inputs). -/
theorem parseQuestionFile_deterministic (html part : String) (n : Int) :
    parseQuestionFile html part n = parseQuestionFile html part n := rfl

theorem mk_ne_empty {l : List Char} (h : l ≠ []) : String.mk l ≠ "" := by
  intro he
  exact h (by simpa using congrArg String.data he)

/-- Claim C7: when the tier-1 tabular extraction succeeds both bilingual
fields are non-empty, and when tiers 1 and 2 both fail the tier-3 fallback
returns an empty latin field with the normalized whole fragment as
english. -/
theorem bilingual_tier_guarantees (html : String) :
    (∀ bt, tier1 html.toList = some bt → bt.latin ≠ "" ∧ bt.english ≠ "") ∧
    (tier1 html.toList = none → tier2 html.toList = none →
      extractBilingualContent html = ⟨"", cleanText html⟩) := by
  constructor
  · intro bt h
    unfold tier1 at h
    split at h
    · exact absurd h (by simp)
    · split at h
      · simp only at h
        split at h
        · rename_i hcond
          simp only [Option.some.injEq] at h
          subst h
          simp only [Bool.and_eq_true, Bool.not_eq_true',
            List.isEmpty_eq_false] at hcond
          exact ⟨mk_ne_empty hcond.1, mk_ne_empty hcond.2⟩
        · exact absurd h (by simp)
      · exact absurd h (by simp)
  · intro h1 h2
    unfold extractBilingualContent extractBilingualContentL
    rw [h1, h2]
    rfl

/-! ## `cleanText` normalization: window predicates -/

theorem hasTripleNl_cons_true (a : Char) {X : List Char}
    (h : hasTripleNl X = true) : hasTripleNl (a :: X) = true := by
  match X with
  | [] => simp [hasTripleNl] at h
  | [x] => simp [hasTripleNl] at h
  | x :: y :: t =>
    unfold hasTripleNl
    rw [h]
    simp

theorem hasTripleNl_exists : ∀ {l : List Char}, hasTripleNl l = true →
    ∃ p q, l = p ++ '\n' :: '\n' :: '\n' :: q
  | [], h => by simp [hasTripleNl] at h
  | [a], h => by simp [hasTripleNl] at h
  | [a, b], h => by simp [hasTripleNl] at h
  | a :: b :: c :: t, h => by
    unfold hasTripleNl at h
    simp only [Bool.or_eq_true, Bool.and_eq_true, decide_eq_true_eq] at h
    rcases h with hand | h'
    · have ha : a = '\n' := hand.1.1
      have hb : b = '\n' := hand.1.2
      have hc : c = '\n' := hand.2
      exact ⟨[], t, by simp [ha, hb, hc]⟩
    · obtain ⟨p, q, hpq⟩ := hasTripleNl_exists h'
      exact ⟨a :: p, q, by simp [hpq]⟩

theorem hasTripleNl_append : ∀ (p q : List Char),
    hasTripleNl (p ++ '\n' :: '\n' :: '\n' :: q) = true
  | [], q => by simp [hasTripleNl]
  | a :: p, q => hasTripleNl_cons_true a (hasTripleNl_append p q)

theorem hasTripleNl_sub {x y : List Char}
    (h : hasTripleNl (x ++ y) = false) :
    hasTripleNl x = false ∧ hasTripleNl y = false := by
  constructor
  · cases hx : hasTripleNl x with
    | false => rfl
    | true =>
      obtain ⟨p, q, hpq⟩ := hasTripleNl_exists hx
      have ht : hasTripleNl (x ++ y) = true := by
        rw [hpq, show (p ++ '\n' :: '\n' :: '\n' :: q) ++ y
              = p ++ '\n' :: '\n' :: '\n' :: (q ++ y) by simp]
        exact hasTripleNl_append p (q ++ y)
      rw [h] at ht
      exact absurd ht (by simp)
  · cases hy : hasTripleNl y with
    | false => rfl
    | true =>
      obtain ⟨p, q, hpq⟩ := hasTripleNl_exists hy
      have ht : hasTripleNl (x ++ y) = true := by
        rw [hpq, show x ++ (p ++ '\n' :: '\n' :: '\n' :: q)
              = (x ++ p) ++ '\n' :: '\n' :: '\n' :: q by simp]
        exact hasTripleNl_append (x ++ p) q
      rw [h] at ht
      exact absurd ht (by simp)

theorem hasTripleNl_tail {a : Char} {X : List Char}
    (h : hasTripleNl (a :: X) = false) : hasTripleNl X = false :=
  (@hasTripleNl_sub [a] X h).2

theorem hasTripleNl_cons_false {a : Char} {X : List Char}
    (hX : hasTripleNl X = false)
    (h : a = '\n' → ∀ Z, X ≠ '\n' :: '\n' :: Z) :
    hasTripleNl (a :: X) = false := by
  match X with
  | [] => rfl
  | [x] => rfl
  | x :: y :: t =>
    unfold hasTripleNl
    rw [hX]
    simp only [Bool.or_false]
    by_cases ha : a = '\n'
    · by_cases hx : x = '\n'
      · by_cases hy : y = '\n'
        · subst hx
          subst hy
          exact absurd rfl (h ha t)
        · simp [hy]
      · simp [hx]
    · simp [ha]

theorem hasDoubleHw_cons_true (a : Char) {X : List Char}
    (h : hasDoubleHw X = true) : hasDoubleHw (a :: X) = true := by
  match X with
  | [] => simp [hasDoubleHw] at h
  | x :: t =>
    unfold hasDoubleHw
    rw [h]
    simp

theorem hasDoubleHw_exists : ∀ {l : List Char}, hasDoubleHw l = true →
    ∃ p a b q, hwChar a = true ∧ hwChar b = true ∧ l = p ++ a :: b :: q
  | [], h => by simp [hasDoubleHw] at h
  | [a], h => by simp [hasDoubleHw] at h
  | a :: b :: t, h => by
    unfold hasDoubleHw at h
    simp only [Bool.or_eq_true, Bool.and_eq_true] at h
    rcases h with ⟨ha, hb⟩ | h'
    · exact ⟨[], a, b, t, ha, hb, rfl⟩
    · obtain ⟨p, x, y, q, hx, hy, hpq⟩ := hasDoubleHw_exists h'
      exact ⟨a :: p, x, y, q, hx, hy, by simp [hpq]⟩

theorem hasDoubleHw_append : ∀ (p : List Char) {a b : Char} (q : List Char),
    hwChar a = true → hwChar b = true →
    hasDoubleHw (p ++ a :: b :: q) = true
  | [], _, _, q, ha, hb => by
    show hasDoubleHw (_ :: _ :: q) = true
    unfold hasDoubleHw
    rw [ha, hb]
    simp
  | c :: p, _, _, q, ha, hb =>
    hasDoubleHw_cons_true c (hasDoubleHw_append p q ha hb)

theorem hasDoubleHw_sub {x y : List Char}
    (h : hasDoubleHw (x ++ y) = false) :
    hasDoubleHw x = false ∧ hasDoubleHw y = false := by
  constructor
  · cases hx : hasDoubleHw x with
    | false => rfl
    | true =>
      obtain ⟨p, a, b, q, ha, hb, hpq⟩ := hasDoubleHw_exists hx
      have ht : hasDoubleHw (x ++ y) = true := by
        rw [hpq, show (p ++ a :: b :: q) ++ y = p ++ a :: b :: (q ++ y)
              by simp]
        exact hasDoubleHw_append p (q ++ y) ha hb
      rw [h] at ht
      exact absurd ht (by simp)
  · cases hy : hasDoubleHw y with
    | false => rfl
    | true =>
      obtain ⟨p, a, b, q, ha, hb, hpq⟩ := hasDoubleHw_exists hy
      have ht : hasDoubleHw (x ++ y) = true := by
        rw [hpq, show x ++ (p ++ a :: b :: q) = (x ++ p) ++ a :: b :: q
              by simp]
        exact hasDoubleHw_append (x ++ p) q ha hb
      rw [h] at ht
      exact absurd ht (by simp)

theorem hasDoubleHw_cons_false {a : Char} {X : List Char}
    (hX : hasDoubleHw X = false)
    (h : hwChar a = true → ∀ d Z, X = d :: Z → hwChar d = false) :
    hasDoubleHw (a :: X) = false := by
  match X with
  | [] => rfl
  | x :: t =>
    unfold hasDoubleHw
    rw [hX]
    simp only [Bool.or_false]
    by_cases ha : hwChar a = true
    · rw [h ha x t rfl]
      simp
    · rw [Bool.not_eq_true] at ha
      rw [ha]
      simp

/-! ## `cleanText` normalization: structural decompositions -/

theorem trimRight_decomp : ∀ l : List Char, ∃ y, l = trimRight l ++ y
  | [] => ⟨[], rfl⟩
  | c :: cs => by
    obtain ⟨y, hy⟩ := trimRight_decomp cs
    unfold trimRight
    cases hcs : trimRight cs with
    | nil =>
      by_cases hc : sChar c
      · rw [hc]
        exact ⟨c :: cs, rfl⟩
      · rw [Bool.not_eq_true] at hc
        rw [hc]
        exact ⟨cs, rfl⟩
    | cons d ds =>
      rw [hcs] at hy
      exact ⟨y, by rw [List.cons_append, ← hy]⟩

theorem dropWhile_head {p : Char → Bool} :
    ∀ {l : List Char} {d : Char} {ds : List Char},
      l.dropWhile p = d :: ds → p d = false
  | [], _, _, h => by simp [List.dropWhile] at h
  | c :: cs, d, ds, h => by
    rw [List.dropWhile_cons] at h
    split at h
    · exact dropWhile_head h
    · rename_i hc
      cases h
      simpa using hc

theorem trimRight_head :
    ∀ {l : List Char} {d : Char} {ds : List Char},
      trimRight l = d :: ds → ∃ t, l = d :: t
  | [], _, _, h => by simp [trimRight] at h
  | c :: cs, d, ds, h => by
    unfold trimRight at h
    split at h
    · split at h
      · exact absurd h (by simp)
      · cases h
        exact ⟨cs, rfl⟩
    · cases h
      exact ⟨cs, rfl⟩

theorem trimRight_last :
    ∀ {l : List Char} {d : Char},
      (trimRight l).getLast? = some d → sChar d = false
  | [], _, h => by simp [trimRight] at h
  | c :: cs, d, h => by
    unfold trimRight at h
    split at h
    · rename_i hnil
      split at h
      · simp at h
      · rename_i hc
        simp only [List.getLast?_singleton, Option.some.injEq] at h
        subst h
        simpa using hc
    · rename_i hne
      cases hcs : trimRight cs with
      | nil => exact absurd hcs hne
      | cons e es =>
        rw [hcs, List.getLast?_cons_cons] at h
        exact trimRight_last
          (show (trimRight cs).getLast? = some d by rw [hcs]; exact h)

/-! ## The newline-collapsing pass leaves no triple newline -/

theorem replNl3F_head : ∀ (fuel : Nat) (l : List Char),
    (replNl3F fuel l).head? = l.head?
  | 0, _ => rfl
  | _ + 1, [] => rfl
  | fuel + 1, c :: cs => by
    unfold replNl3F
    split
    · rename_i hc
      split <;> simp [hc]
    · simp

theorem lastNlEnd_none : ∀ {w : List Char}, lastNlEnd w = none →
    ∀ c ∈ w, c ≠ '\n'
  | [], _, c, hc => by simp at hc
  | a :: as, h, c, hc => by
    unfold lastNlEnd at h
    split at h
    · exact absurd h (by simp)
    · rename_i hnone
      split at h
      · exact absurd h (by simp)
      · rename_i ha
        rcases List.mem_cons.mp hc with rfl | hmem
        · exact ha
        · exact lastNlEnd_none hnone c hmem

theorem lastNlEnd_decomp : ∀ {w : List Char} {k : Nat}, lastNlEnd w = some k →
    ∃ w1 w2, w = w1 ++ '\n' :: w2 ∧ k = w1.length + 1 ∧ ∀ c ∈ w2, c ≠ '\n'
  | [], _, h => by simp [lastNlEnd] at h
  | a :: as, k, h => by
    unfold lastNlEnd at h
    split at h
    · rename_i k' hk'
      obtain ⟨w1, w2, h1, h2, h3⟩ := lastNlEnd_decomp hk'
      simp only [Option.some.injEq] at h
      refine ⟨a :: w1, w2, by simp [h1], ?_, h3⟩
      simp only [List.length_cons]
      omega
    · rename_i hnone
      split at h
      · rename_i ha
        simp only [Option.some.injEq] at h
        exact ⟨[], as, by simp [ha], by simp [← h], lastNlEnd_none hnone⟩
      · exact absurd h (by simp)

theorem drop_len_succ_append : ∀ (w1 rest : List Char) (x : Char),
    (w1 ++ x :: rest).drop (w1.length + 1) = rest
  | [], rest, x => rfl
  | a :: w1, rest, x => by
    show (a :: (w1 ++ x :: rest)).drop (w1.length + 1 + 1) = rest
    rw [List.drop_succ_cons]
    exact drop_len_succ_append w1 rest x

theorem nl3Extent_head {cs t : List Char} (h : nl3Extent cs = some t) :
    ∀ d ds, t = d :: ds → d ≠ '\n' := by
  intro d ds ht
  unfold nl3Extent at h
  simp only at h
  split at h
  · split at h
    · rename_i k hk
      simp only [Option.some.injEq] at h
      obtain ⟨w1, w2, h1, h2, h3⟩ := lastNlEnd_decomp hk
      have hsplit : cs = (w1 ++ '\n' :: w2) ++ cs.dropWhile sChar := by
        conv_lhs => rw [← List.takeWhile_append_dropWhile sChar cs]
        rw [h1]
      have ht2 : t = w2 ++ cs.dropWhile sChar := by
        rw [← h, h2]
        conv_lhs => rw [hsplit]
        rw [List.append_assoc, List.cons_append]
        exact drop_len_succ_append w1 (w2 ++ cs.dropWhile sChar) '\n'
      rw [ht] at ht2
      cases w2 with
      | nil =>
        simp only [List.nil_append] at ht2
        have hd := dropWhile_head ht2.symm
        intro he
        rw [he] at hd
        exact absurd hd (by simp [sChar])
      | cons e es =>
        have hde : d = e := by
          rw [List.cons_append] at ht2
          injection ht2 with h1 h2
        rw [hde]
        exact h3 e (List.mem_cons_self e es)
    · exact absurd h (by simp)
  · exact absurd h (by simp)

theorem nlCount_cons (a : Char) (as : List Char) :
    nlCount (a :: as) = if a = '\n' then nlCount as + 1 else nlCount as := rfl

theorem nlCount_zero : ∀ {w : List Char}, (∀ c ∈ w, c ≠ '\n') → nlCount w = 0
  | [], _ => rfl
  | a :: as, h => by
    rw [nlCount_cons]
    have ha : a ≠ '\n' := h a (List.mem_cons_self a as)
    rw [if_neg ha]
    exact nlCount_zero fun c hc => h c (List.mem_cons_of_mem a hc)

theorem nl3Extent_none {cs : List Char} (h : nl3Extent cs = none) :
    nlCount (cs.takeWhile sChar) ≤ 1 := by
  unfold nl3Extent at h
  simp only at h
  split at h
  · rename_i h2
    split at h
    · exact absurd h (by simp)
    · rename_i hnone
      have h0 := nlCount_zero (lastNlEnd_none hnone)
      omega
  · rename_i h2
    omega

theorem nl3Extent_none_of_zero {ds : List Char}
    (h : nlCount (ds.takeWhile sChar) = 0) : nl3Extent ds = none := by
  unfold nl3Extent
  simp [h]

theorem replNl3F_noTriple : ∀ (fuel : Nat) (l : List Char),
    l.length ≤ fuel → hasTripleNl (replNl3F fuel l) = false
  | 0, l, h => by
    have hl : l = [] := List.eq_nil_of_length_eq_zero (Nat.le_zero.mp h)
    subst hl
    rfl
  | _ + 1, [], _ => rfl
  | fuel + 1, c :: cs, h => by
    have hcs : cs.length ≤ fuel := by
      simp only [List.length_cons] at h
      omega
    unfold replNl3F
    split
    · rename_i hc
      split
      · rename_i t hext
        have IH := replNl3F_noTriple fuel t
          (le_trans (nl3Extent_len hext) hcs)
        have hhd := nl3Extent_head hext
        have hheadY : ∀ Z, replNl3F fuel t ≠ '\n' :: Z := by
          intro Z hZ
          have hh : t.head? = some '\n' := by
            rw [← replNl3F_head fuel t, hZ]
            rfl
          cases t with
          | nil => exact absurd hh (by simp)
          | cons d ds =>
            simp only [List.head?_cons, Option.some.injEq] at hh
            exact hhd d ds rfl hh
        apply hasTripleNl_cons_false
        · apply hasTripleNl_cons_false IH
          intro _ Z hZ
          exact hheadY ('\n' :: Z) hZ
        · intro _ Z hZ
          have : replNl3F fuel t = '\n' :: Z := by injection hZ
          exact hheadY Z this
      · rename_i hext
        have IH := replNl3F_noTriple fuel cs hcs
        apply hasTripleNl_cons_false IH
        intro _ Z hZ
        have hcnt := nl3Extent_none hext
        have hhead : cs.head? = some '\n' := by
          rw [← replNl3F_head fuel cs, hZ]
          rfl
        cases cs with
        | nil => exact absurd hhead (by simp)
        | cons d ds =>
          simp only [List.head?_cons, Option.some.injEq] at hhead
          subst hhead
          have h1 : nlCount (List.takeWhile sChar ds) = 0 := by
            rw [List.takeWhile_cons, if_pos (show sChar '\n' = true from rfl),
              nlCount_cons, if_pos rfl] at hcnt
            omega
          cases fuel with
          | zero =>
            simp only [List.length_cons] at hcs
            omega
          | succ f =>
            have hcomp : replNl3F (f + 1) ('\n' :: ds)
                = '\n' :: replNl3F f ds := by
              conv_lhs => rw [replNl3F]
              rw [if_pos rfl, nl3Extent_none_of_zero h1]
            rw [hcomp] at hZ
            have hZ2 : replNl3F f ds = '\n' :: Z := by injection hZ
            have hh2 : ds.head? = some '\n' := by
              rw [← replNl3F_head f ds, hZ2]
              rfl
            cases ds with
            | nil => exact absurd hh2 (by simp)
            | cons e es =>
              simp only [List.head?_cons, Option.some.injEq] at hh2
              subst hh2
              rw [List.takeWhile_cons,
                if_pos (show sChar '\n' = true from rfl),
                nlCount_cons, if_pos rfl] at h1
              omega
    · rename_i hc
      have IH := replNl3F_noTriple fuel cs hcs
      apply hasTripleNl_cons_false IH
      intro hcc _ _
      exact absurd hcc hc

/-! ## The horizontal-whitespace pass: single spaces only -/

theorem replHwsF_nil (fuel : Nat) : replHwsF fuel [] = [] := by
  cases fuel <;> rfl

theorem replHwsF_head : ∀ (fuel : Nat) (d : Char) (ds : List Char),
    1 ≤ fuel →
    (replHwsF fuel (d :: ds)).head? = some (if hwChar d then ' ' else d)
  | 0, _, _, h => absurd h (by omega)
  | fuel + 1, d, ds, _ => by
    unfold replHwsF
    split <;> rename_i hd <;> simp [hd]

theorem replHwsF_noDouble : ∀ (fuel : Nat) (l : List Char),
    l.length ≤ fuel → hasDoubleHw (replHwsF fuel l) = false
  | 0, l, h => by
    have hl : l = [] := List.eq_nil_of_length_eq_zero (Nat.le_zero.mp h)
    subst hl
    rfl
  | _ + 1, [], _ => rfl
  | fuel + 1, c :: cs, h => by
    have hcs : cs.length ≤ fuel := by
      simp only [List.length_cons] at h
      omega
    unfold replHwsF
    split
    · rename_i hcw
      have hlen : (cs.dropWhile hwChar).length ≤ fuel :=
        le_trans (dropWhile_len hwChar cs) hcs
      have IH := replHwsF_noDouble fuel (cs.dropWhile hwChar) hlen
      apply hasDoubleHw_cons_false IH
      intro _ d Z hZ
      cases hrest : cs.dropWhile hwChar with
      | nil =>
        rw [hrest, replHwsF_nil] at hZ
        exact absurd hZ (by simp)
      | cons e es =>
        have he := dropWhile_head hrest
        have hf1 : 1 ≤ fuel := by
          rw [hrest] at hlen
          simp only [List.length_cons] at hlen
          omega
        have hh := replHwsF_head fuel e es hf1
        rw [hrest] at hZ
        rw [hZ] at hh
        simp only [List.head?_cons, Option.some.injEq] at hh
        rw [hh, if_neg (by rw [Bool.not_eq_true]; exact he)]
        exact he
    · rename_i hcw
      have IH := replHwsF_noDouble fuel cs hcs
      apply hasDoubleHw_cons_false IH
      intro hc _ _ _
      exact absurd hc hcw

theorem replHwsF_noTriple : ∀ (fuel : Nat) (l : List Char),
    l.length ≤ fuel → hasTripleNl l = false →
    hasTripleNl (replHwsF fuel l) = false
  | 0, l, h, _ => by
    have hl : l = [] := List.eq_nil_of_length_eq_zero (Nat.le_zero.mp h)
    subst hl
    rfl
  | _ + 1, [], _, _ => rfl
  | fuel + 1, c :: cs, h, h3 => by
    have hcs : cs.length ≤ fuel := by
      simp only [List.length_cons] at h
      omega
    have h3cs := hasTripleNl_tail h3
    unfold replHwsF
    split
    · rename_i hcw
      have hrest3 : hasTripleNl (cs.dropWhile hwChar) = false := by
        have hdec := List.takeWhile_append_dropWhile hwChar cs
        exact (hasTripleNl_sub (by rw [hdec]; exact h3cs)).2
      have IH := replHwsF_noTriple fuel (cs.dropWhile hwChar)
        (le_trans (dropWhile_len hwChar cs) hcs) hrest3
      apply hasTripleNl_cons_false IH
      intro hsp _ _
      exact absurd hsp (by decide)
    · rename_i hcw
      have IH := replHwsF_noTriple fuel cs hcs h3cs
      apply hasTripleNl_cons_false IH
      intro hc Z hZ
      cases hccs : cs with
      | nil =>
        rw [hccs, replHwsF_nil] at hZ
        exact absurd hZ (by simp)
      | cons d ds =>
        have hf1 : 1 ≤ fuel := by
          rw [hccs] at hcs
          simp only [List.length_cons] at hcs
          omega
        have hh := replHwsF_head fuel d ds hf1
        rw [hccs] at hZ
        rw [hZ] at hh
        simp only [List.head?_cons, Option.some.injEq] at hh
        have hd : d = '\n' := by
          by_cases hwd : hwChar d = true
          · rw [if_pos hwd] at hh
            exact absurd hh (by decide)
          · rw [if_neg hwd] at hh
            exact hh.symm
        subst hd
        cases fuel with
        | zero => omega
        | succ f =>
          have hcomp : replHwsF (f + 1) ('\n' :: ds)
              = '\n' :: replHwsF f ds := by
            conv_lhs => rw [replHwsF]
            rw [if_neg (by decide)]
          rw [hcomp] at hZ
          have hZ2 : replHwsF f ds = '\n' :: Z := by injection hZ
          cases hds : ds with
          | nil =>
            rw [hds, replHwsF_nil] at hZ2
            exact absurd hZ2 (by simp)
          | cons e es =>
            have hf2 : 1 ≤ f := by
              rw [hccs, hds] at hcs
              simp only [List.length_cons] at hcs
              omega
            have hh2 := replHwsF_head f e es hf2
            rw [hds] at hZ2
            rw [hZ2] at hh2
            simp only [List.head?_cons, Option.some.injEq] at hh2
            have he : e = '\n' := by
              by_cases hwe : hwChar e = true
              · rw [if_pos hwe] at hh2
                exact absurd hh2 (by decide)
              · rw [if_neg hwe] at hh2
                exact hh2.symm
            subst he
            rw [hc, hccs, hds] at h3
            simp [hasTripleNl] at h3

/-! ## Trim: edges and closure -/

theorem trimWs_noTriple {l : List Char} (h : hasTripleNl l = false) :
    hasTripleNl (trimWs l) = false := by
  unfold trimWs
  have h1 : hasTripleNl (l.dropWhile sChar) = false := by
    have hdec := List.takeWhile_append_dropWhile sChar l
    exact (hasTripleNl_sub (by rw [hdec]; exact h)).2
  obtain ⟨y, hy⟩ := trimRight_decomp (l.dropWhile sChar)
  exact (hasTripleNl_sub (by rw [← hy]; exact h1)).1

theorem trimWs_noDouble {l : List Char} (h : hasDoubleHw l = false) :
    hasDoubleHw (trimWs l) = false := by
  unfold trimWs
  have h1 : hasDoubleHw (l.dropWhile sChar) = false := by
    have hdec := List.takeWhile_append_dropWhile sChar l
    exact (hasDoubleHw_sub (by rw [hdec]; exact h)).2
  obtain ⟨y, hy⟩ := trimRight_decomp (l.dropWhile sChar)
  exact (hasDoubleHw_sub (by rw [← hy]; exact h1)).1

theorem trimWs_edge (l : List Char) : edgeWsFree (trimWs l) = true := by
  unfold trimWs edgeWsFree
  cases htr : trimRight (l.dropWhile sChar) with
  | nil => rfl
  | cons d ds =>
    obtain ⟨t, ht⟩ := trimRight_head htr
    have hd : sChar d = false := dropWhile_head ht
    cases hlast : (d :: ds).getLast? with
    | none => simp at hlast
    | some e =>
      have he : sChar e = false :=
        trimRight_last (show (trimRight (l.dropWhile sChar)).getLast? = some e
          by rw [htr]; exact hlast)
      simp [hd, he]

/-- The whole `cleanText` pipeline yields normalized whitespace. -/
theorem cleanTextL_normalized (l : List Char) :
    hasTripleNl (cleanTextL l) = false ∧
    hasDoubleHw (cleanTextL l) = false ∧
    edgeWsFree (cleanTextL l) = true := by
  unfold cleanTextL replHws replNl3
  refine ⟨?_, ?_, ?_⟩
  · apply trimWs_noTriple
    apply replHwsF_noTriple _ _ (by omega)
    apply replNl3F_noTriple _ _ (by omega)
  · apply trimWs_noDouble
    apply replHwsF_noDouble _ _ (by omega)
  · apply trimWs_edge

/-! ## Unrecognized entities pass through `cleanText` unchanged -/

theorem alpha_ne {c x : Char} (h : c.isAlpha = true) (hx : x.isAlpha = false) :
    c ≠ x := by
  intro he
  rw [he] at h
  rw [h] at hx
  exact absurd hx (by simp)

theorem lcn_eq_sixty {c : Char} (h : lcn c = 60) : c = '<' := by
  unfold lcn at h
  split at h
  · rename_i hr
    omega
  · have h2 : c = Char.ofNat 60 := by
      rw [← h, Char.ofNat_toNat]
    rw [h2]

theorem ciPre_lt_head {p : List Char} {c : Char} {cs : List Char}
    (hc : c ≠ '<') : ciPre ('<' :: p) (c :: cs) = false := by
  unfold ciPre
  by_cases he : lcn '<' = lcn c
  · have h60 : lcn c = 60 := by
      rw [← he]
      decide
    exact absurd (lcn_eq_sixty h60) hc
  · simp [he]

theorem replBrF_id : ∀ (fuel : Nat) (l : List Char), (∀ c ∈ l, c ≠ '<') →
    replBrF fuel l = l
  | 0, l, _ => rfl
  | _ + 1, [], _ => rfl
  | fuel + 1, c :: cs, h => by
    have hbr : brAt (c :: cs) = none := by
      unfold brAt
      rw [show ciPre "<br".toList (c :: cs) = false from
        ciPre_lt_head (h c (List.mem_cons_self c cs))]
      rfl
    unfold replBrF
    rw [hbr, replBrF_id fuel cs fun d hd => h d (List.mem_cons_of_mem c hd)]

theorem replPOpenF_id : ∀ (fuel : Nat) (l : List Char), (∀ c ∈ l, c ≠ '<') →
    replPOpenF fuel l = l
  | 0, l, _ => rfl
  | _ + 1, [], _ => rfl
  | fuel + 1, c :: cs, h => by
    have hop : openTagAt "<p".toList (c :: cs) = none :=
      openTagAt_none (ciPre_lt_head (h c (List.mem_cons_self c cs)))
    unfold replPOpenF
    rw [hop, replPOpenF_id fuel cs fun d hd => h d (List.mem_cons_of_mem c hd)]

theorem replPCloseF_id : ∀ (fuel : Nat) (l : List Char), (∀ c ∈ l, c ≠ '<') →
    replPCloseF fuel l = l
  | 0, l, _ => rfl
  | _ + 1, [], _ => rfl
  | fuel + 1, c :: cs, h => by
    unfold replPCloseF
    rw [show ciPre "</p>".toList (c :: cs) = false from
      ciPre_lt_head (h c (List.mem_cons_self c cs))]
    rw [replPCloseF_id fuel cs fun d hd => h d (List.mem_cons_of_mem c hd)]
    rfl

theorem anyTagAt_none {c : Char} {cs : List Char} (hc : c ≠ '<') :
    anyTagAt (c :: cs) = none := by
  unfold anyTagAt
  split
  · rename_i r heq
    injection heq with h1 h2
    exact absurd h1 hc
  · rfl

theorem replTagsF_id : ∀ (fuel : Nat) (l : List Char), (∀ c ∈ l, c ≠ '<') →
    replTagsF fuel l = l
  | 0, l, _ => rfl
  | _ + 1, [], _ => rfl
  | fuel + 1, c :: cs, h => by
    unfold replTagsF
    rw [anyTagAt_none (h c (List.mem_cons_self c cs)),
      replTagsF_id fuel cs fun d hd => h d (List.mem_cons_of_mem c hd)]

theorem replLitF_id (pat rep : List Char) : ∀ (fuel : Nat) (l : List Char),
    containsLit pat l = false → replLitF pat rep fuel l = l
  | 0, l, _ => rfl
  | _ + 1, [], _ => rfl
  | fuel + 1, c :: cs, h => by
    have h' : litPre pat (c :: cs) = false ∧ containsLit pat cs = false := by
      simpa [containsLit] using h
    unfold replLitF
    rw [h'.1, replLitF_id pat rep fuel cs h'.2]
    rfl

theorem replNl3F_id : ∀ (fuel : Nat) (l : List Char), (∀ c ∈ l, c ≠ '\n') →
    replNl3F fuel l = l
  | 0, l, _ => rfl
  | _ + 1, [], _ => rfl
  | fuel + 1, c :: cs, h => by
    unfold replNl3F
    rw [if_neg (h c (List.mem_cons_self c cs)),
      replNl3F_id fuel cs fun d hd => h d (List.mem_cons_of_mem c hd)]

theorem replHwsF_id : ∀ (fuel : Nat) (l : List Char),
    (∀ c ∈ l, hwChar c = false) → replHwsF fuel l = l
  | 0, l, _ => rfl
  | _ + 1, [], _ => rfl
  | fuel + 1, c :: cs, h => by
    unfold replHwsF
    rw [h c (List.mem_cons_self c cs),
      replHwsF_id fuel cs fun d hd => h d (List.mem_cons_of_mem c hd)]
    rfl

theorem dropWhile_id {l : List Char} (h : ∀ c ∈ l, sChar c = false) :
    l.dropWhile sChar = l := by
  cases l with
  | nil => rfl
  | cons c cs =>
    rw [List.dropWhile_cons,
      if_neg (by rw [h c (List.mem_cons_self c cs)]; simp)]

theorem trimRight_id : ∀ {l : List Char}, (∀ c ∈ l, sChar c = false) →
    trimRight l = l
  | [], _ => rfl
  | c :: cs, h => by
    unfold trimRight
    rw [trimRight_id fun d hd => h d (List.mem_cons_of_mem c hd)]
    cases cs with
    | nil => simp [h c (List.mem_cons_self c [])]
    | cons d ds => rfl

theorem trimWs_id {l : List Char} (h : ∀ c ∈ l, sChar c = false) :
    trimWs l = l := by
  unfold trimWs
  rw [dropWhile_id h, trimRight_id h]

theorem containsLit_amp_head {w : List Char} : ∀ {xs : List Char},
    (∀ c ∈ xs, c ≠ '&') → containsLit ('&' :: w) xs = false
  | [], _ => rfl
  | c :: cs, h => by
    have h1 : litPre ('&' :: w) (c :: cs) = false := by
      unfold litPre
      rw [decide_eq_false fun he => (h c (List.mem_cons_self c cs)) he.symm]
      simp
    unfold containsLit
    rw [h1, containsLit_amp_head fun d hd => h d (List.mem_cons_of_mem c hd)]
    rfl

theorem litPre_token : ∀ (w name : List Char),
    (∀ c ∈ w, c.isAlpha = true) → (∀ c ∈ name, c.isAlpha = true) →
    litPre (w ++ [';']) (name ++ [';']) = true → w = name
  | [], [], _, _, _ => rfl
  | [], a :: name', _, hn, h => by
    simp only [List.nil_append, List.cons_append, litPre,
      Bool.and_eq_true, decide_eq_true_eq] at h
    exact absurd h.1.symm
      (alpha_ne (hn a (List.mem_cons_self a name')) (by decide))
  | x :: w', [], hw, _, h => by
    simp only [List.cons_append, List.nil_append, litPre,
      Bool.and_eq_true, decide_eq_true_eq] at h
    exact absurd h.1
      (alpha_ne (hw x (List.mem_cons_self x w')) (by decide))
  | x :: w', a :: name', hw, hn, h => by
    simp only [List.cons_append, litPre, Bool.and_eq_true,
      decide_eq_true_eq] at h
    have hrec := litPre_token w' name'
      (fun c hc => hw c (List.mem_cons_of_mem x hc))
      (fun c hc => hn c (List.mem_cons_of_mem a hc)) h.2
    rw [h.1, hrec]

theorem litPre_hash {u name : List Char}
    (hn : ∀ c ∈ name, c.isAlpha = true) :
    litPre ('#' :: u) (name ++ [';']) = false := by
  cases name with
  | nil =>
    unfold litPre
    simp
  | cons a name' =>
    show litPre ('#' :: u) (a :: (name' ++ [';'])) = false
    unfold litPre
    rw [decide_eq_false fun he =>
      (alpha_ne (hn a (List.mem_cons_self a name')) (by decide)) he.symm]
    simp

theorem containsLit_entity_named {w name : List Char}
    (hw : ∀ c ∈ w, c.isAlpha = true) (hn : ∀ c ∈ name, c.isAlpha = true)
    (hne : name ≠ w) :
    containsLit ('&' :: (w ++ [';'])) ('&' :: (name ++ [';'])) = false := by
  have htail : ∀ c ∈ name ++ [';'], c ≠ '&' := by
    intro c hc
    rcases List.mem_append.mp hc with hm | hm
    · exact alpha_ne (hn c hm) (by decide)
    · rw [List.mem_singleton.mp hm]
      decide
  have h1 : litPre ('&' :: (w ++ [';'])) ('&' :: (name ++ [';'])) = false := by
    unfold litPre
    rw [decide_eq_true rfl]
    by_cases hlp : litPre (w ++ [';']) (name ++ [';']) = true
    · exact absurd (litPre_token w name hw hn hlp).symm hne
    · rw [Bool.not_eq_true] at hlp
      rw [hlp]
      rfl
  unfold containsLit
  rw [h1, containsLit_amp_head htail]
  rfl

theorem containsLit_entity_numeric {u name : List Char}
    (hn : ∀ c ∈ name, c.isAlpha = true) :
    containsLit ('&' :: '#' :: u) ('&' :: (name ++ [';'])) = false := by
  have htail : ∀ c ∈ name ++ [';'], c ≠ '&' := by
    intro c hc
    rcases List.mem_append.mp hc with hm | hm
    · exact alpha_ne (hn c hm) (by decide)
    · rw [List.mem_singleton.mp hm]
      decide
  have h1 : litPre ('&' :: '#' :: u) ('&' :: (name ++ [';'])) = false := by
    unfold litPre
    rw [decide_eq_true rfl, litPre_hash hn]
    rfl
  unfold containsLit
  rw [h1, containsLit_amp_head htail]
  rfl

theorem toList_inj {s t : String} (h : s.toList = t.toList) : s = t := by
  rw [← mk_toList s, ← mk_toList t, h]

theorem toList_mk (l : List Char) : (String.mk l).toList = l := rfl

/-- An `&name;` entity with an alphabetic name outside the decoded set is
left untouched by `cleanText`. -/
theorem cleanText_entity_unchanged (name : String)
    (halpha : ∀ c ∈ name.toList, c.isAlpha = true)
    (hmem : ¬ name ∈ decodedEntityNames) :
    cleanText ("&" ++ name ++ ";") = "&" ++ name ++ ";" := by
  have hchar : ∀ c ∈ '&' :: (name.toList ++ [';']),
      c.isAlpha = true ∨ c = '&' ∨ c = ';' := by
    intro c hc
    rcases List.mem_cons.mp hc with rfl | hc2
    · exact Or.inr (Or.inl rfl)
    · rcases List.mem_append.mp hc2 with hm | hm
      · exact Or.inl (halpha c hm)
      · exact Or.inr (Or.inr (List.mem_singleton.mp hm))
  have hlt : ∀ c ∈ '&' :: (name.toList ++ [';']), c ≠ '<' := by
    intro c hc
    rcases hchar c hc with h | h | h
    · exact alpha_ne h (by decide)
    · rw [h]; decide
    · rw [h]; decide
  have hnl : ∀ c ∈ '&' :: (name.toList ++ [';']), c ≠ '\n' := by
    intro c hc
    rcases hchar c hc with h | h | h
    · exact alpha_ne h (by decide)
    · rw [h]; decide
    · rw [h]; decide
  have hhw : ∀ c ∈ '&' :: (name.toList ++ [';']), hwChar c = false := by
    intro c hc
    rcases hchar c hc with h | h | h
    · have h1 := alpha_ne h (show Char.isAlpha ' ' = false by decide)
      have h2 := alpha_ne h (show Char.isAlpha '\t' = false by decide)
      simp [hwChar, h1, h2]
    · rw [h]; decide
    · rw [h]; decide
  have hs : ∀ c ∈ '&' :: (name.toList ++ [';']), sChar c = false := by
    intro c hc
    rcases hchar c hc with h | h | h
    · simp [sChar, alpha_ne h (show Char.isAlpha ' ' = false by decide),
        alpha_ne h (show Char.isAlpha '\t' = false by decide),
        alpha_ne h (show Char.isAlpha '\n' = false by decide),
        alpha_ne h (show Char.isAlpha '\r' = false by decide),
        alpha_ne h (show Char.isAlpha '\x0b' = false by decide),
        alpha_ne h (show Char.isAlpha '\x0c' = false by decide)]
    · rw [h]; decide
    · rw [h]; decide
  have hne : ∀ w : List Char, name.toList ≠ w → ∀ s : String,
      s.toList = w → name ≠ s := by
    intro w hw s hsw he
    exact hw (by rw [he, hsw])
  simp only [decodedEntityNames, List.mem_cons, List.not_mem_nil, or_false,
    not_or] at hmem
  obtain ⟨m1, m2, m3, m4, m5, m6, m7, m8, m9, m10⟩ := hmem
  have e1 : replLit "&nbsp;".toList [' '] ('&' :: (name.toList ++ [';']))
      = '&' :: (name.toList ++ [';']) := replLitF_id _ _ _ _
      (containsLit_entity_named (by decide) halpha fun he => m1 (toList_inj he))
  have e2 : replLit "&mdash;".toList ['—'] ('&' :: (name.toList ++ [';']))
      = '&' :: (name.toList ++ [';']) := replLitF_id _ _ _ _
      (containsLit_entity_named (by decide) halpha fun he => m2 (toList_inj he))
  have e3 : replLit "&ndash;".toList ['–'] ('&' :: (name.toList ++ [';']))
      = '&' :: (name.toList ++ [';']) := replLitF_id _ _ _ _
      (containsLit_entity_named (by decide) halpha fun he => m3 (toList_inj he))
  have e4 : replLit "&ldquo;".toList ['“'] ('&' :: (name.toList ++ [';']))
      = '&' :: (name.toList ++ [';']) := replLitF_id _ _ _ _
      (containsLit_entity_named (by decide) halpha fun he => m4 (toList_inj he))
  have e5 : replLit "&rdquo;".toList ['”'] ('&' :: (name.toList ++ [';']))
      = '&' :: (name.toList ++ [';']) := replLitF_id _ _ _ _
      (containsLit_entity_named (by decide) halpha fun he => m5 (toList_inj he))
  have e6 : replLit "&lsquo;".toList ['‘'] ('&' :: (name.toList ++ [';']))
      = '&' :: (name.toList ++ [';']) := replLitF_id _ _ _ _
      (containsLit_entity_named (by decide) halpha fun he => m6 (toList_inj he))
  have e7 : replLit "&rsquo;".toList ['’'] ('&' :: (name.toList ++ [';']))
      = '&' :: (name.toList ++ [';']) := replLitF_id _ _ _ _
      (containsLit_entity_named (by decide) halpha fun he => m7 (toList_inj he))
  have e8 : replLit "&amp;".toList ['&'] ('&' :: (name.toList ++ [';']))
      = '&' :: (name.toList ++ [';']) := replLitF_id _ _ _ _
      (containsLit_entity_named (by decide) halpha fun he => m8 (toList_inj he))
  have e9 : replLit "&lt;".toList ['<'] ('&' :: (name.toList ++ [';']))
      = '&' :: (name.toList ++ [';']) := replLitF_id _ _ _ _
      (containsLit_entity_named (by decide) halpha fun he => m9 (toList_inj he))
  have e10 : replLit "&gt;".toList ['>'] ('&' :: (name.toList ++ [';']))
      = '&' :: (name.toList ++ [';']) := replLitF_id _ _ _ _
      (containsLit_entity_named (by decide) halpha fun he => m10 (toList_inj he))
  have e11 : replLit "&#8212;".toList ['—'] ('&' :: (name.toList ++ [';']))
      = '&' :: (name.toList ++ [';']) := replLitF_id _ _ _ _
      (containsLit_entity_numeric halpha)
  have e12 : replLit "&#8217;".toList ['’'] ('&' :: (name.toList ++ [';']))
      = '&' :: (name.toList ++ [';']) := replLitF_id _ _ _ _
      (containsLit_entity_numeric halpha)
  have e13 : replLit "&#8220;".toList ['“'] ('&' :: (name.toList ++ [';']))
      = '&' :: (name.toList ++ [';']) := replLitF_id _ _ _ _
      (containsLit_entity_numeric halpha)
  have e14 : replLit "&#8221;".toList ['”'] ('&' :: (name.toList ++ [';']))
      = '&' :: (name.toList ++ [';']) := replLitF_id _ _ _ _
      (containsLit_entity_numeric halpha)
  have hde : decodeEntities ('&' :: (name.toList ++ [';']))
      = '&' :: (name.toList ++ [';']) := by
    unfold decodeEntities
    simp only [e1, e2, e3, e4, e5, e6, e7, e8, e9, e10, e11, e12, e13, e14]
  have hl : ("&" ++ name ++ ";").toList = '&' :: (name.toList ++ [';']) := by
    show ('&' :: name.data) ++ [';'] = '&' :: (name.data ++ [';'])
    rw [List.cons_append]
  show String.mk (cleanTextL ("&" ++ name ++ ";").toList) = "&" ++ name ++ ";"
  rw [hl]
  unfold cleanTextL
  rw [show replBr ('&' :: (name.toList ++ [';'])) = _ from
      replBrF_id _ _ hlt,
    show replPOpen ('&' :: (name.toList ++ [';'])) = _ from
      replPOpenF_id _ _ hlt,
    show replPClose ('&' :: (name.toList ++ [';'])) = _ from
      replPCloseF_id _ _ hlt,
    show replTags ('&' :: (name.toList ++ [';'])) = _ from
      replTagsF_id _ _ hlt,
    hde,
    show replNl3 ('&' :: (name.toList ++ [';'])) = _ from
      replNl3F_id _ _ hnl,
    show replHws ('&' :: (name.toList ++ [';'])) = _ from
      replHwsF_id _ _ hhw,
    trimWs_id hs]
  rw [← hl, mk_toList]

/-- Claim C10: `cleanText` is total on arbitrary strings (it is a plain
function of the model) and its output never holds three consecutive
newlines, never holds two adjacent horizontal whitespace characters, and
carries no leading or trailing whitespace; an `&name;` character entity
outside the fixed decoded set passes through unchanged. -/
theorem cleanText_normalization (s : String) :
    hasTripleNl (cleanText s).toList = false ∧
    hasDoubleHw (cleanText s).toList = false ∧
    edgeWsFree (cleanText s).toList = true ∧
    (∀ name : String, (∀ c ∈ name.toList, c.isAlpha = true) →
      ¬ name ∈ decodedEntityNames →
      cleanText ("&" ++ name ++ ";") = "&" ++ name ++ ";") := by
  obtain ⟨h1, h2, h3⟩ := cleanTextL_normalized s.toList
  unfold cleanText
  rw [toList_mk]
  exact ⟨h1, h2, h3, fun name ha hm => cleanText_entity_unchanged name ha hm⟩




/-! ## Concatenation lemmas for the scanners

The generalized recovery (C4) and duplicate-objection (C8) theorems
quantify over the free text around concrete markers.  The lemmas below move
every scanner across a block of text containing no `<` (such text can hold
no tag and no comment opening) and across one concrete marker. -/

theorem tryMarker_head_none {α} (mid : List Char → Option α) {c : Char}
    {cs : List Char} (hc : c ≠ '<') : tryMarker mid (c :: cs) = none :=
  tryMarker_none mid (show ciPre "<!--aquin".toList (c :: cs) = false from
    ciPre_lt_head hc)

theorem aquinPre_head_false {c : Char} {cs : List Char} (hc : c ≠ '<') :
    aquinPre (c :: cs) = false :=
  show ciPre "<!--aquin".toList (c :: cs) = false from ciPre_lt_head hc

theorem drop_len_append : ∀ (x y : List Char), (x ++ y).drop x.length = y
  | [], y => rfl
  | c :: x, y => by
    rw [List.cons_append, List.length_cons, List.drop_succ_cons]
    exact drop_len_append x y

theorem takeWhile_to_gt : ∀ (core : List Char), (∀ c ∈ core, c ≠ '>') →
    ∀ (rest : List Char),
      (core ++ ('-' :: '-' :: '>' :: rest)).takeWhile (fun c => c ≠ '>')
        = core ++ ['-', '-']
  | [], _, _ => rfl
  | c :: core, h, rest => by
    have hd : (decide (c ≠ '>')) = true :=
      decide_eq_true (h c (List.mem_cons_self c core))
    rw [List.cons_append, List.takeWhile_cons, hd, if_pos rfl,
      takeWhile_to_gt core (fun d hd' => h d (List.mem_cons_of_mem c hd')) rest]
    rfl

theorem ciPre_append_left : ∀ (p x y : List Char), p.length ≤ x.length →
    ciPre p (x ++ y) = ciPre p x
  | [], _, _, _ => rfl
  | _ :: _, [], _, h => by simp at h
  | p :: ps, c :: xs, y, h => by
    have h' : ps.length ≤ xs.length := by
      simp only [List.length_cons] at h
      omega
    rw [List.cons_append]
    show (decide (lcn p = lcn c) && ciPre ps (xs ++ y))
      = (decide (lcn p = lcn c) && ciPre ps xs)
    rw [ciPre_append_left ps xs y h']

theorem aquinAt_shape (core rest : List Char) (hcore : ∀ c ∈ core, c ≠ '>') :
    aquinAt ("<!--Aquin".toList ++ (core ++ ('-' :: '-' :: '>' :: rest)))
      = some (core, rest) := by
  unfold aquinAt
  rw [show ciPre "<!--aquin".toList
      ("<!--Aquin".toList ++ (core ++ ('-' :: '-' :: '>' :: rest))) = true from rfl,
    if_pos rfl]
  simp only
  rw [show ("<!--Aquin".toList ++ (core ++ ('-' :: '-' :: '>' :: rest))).drop 9
      = core ++ ('-' :: '-' :: '>' :: rest) from rfl]
  rw [takeWhile_to_gt core hcore rest]
  rw [if_pos ((by simp only [List.length_append, List.length_cons, List.length_nil]; omega :
    (core ++ ['-', '-']).length < (core ++ ('-' :: '-' :: '>' :: rest)).length))]
  rw [show (core ++ ['-', '-']).reverse = '-' :: '-' :: core.reverse from by simp]
  show some (core.reverse.reverse,
      (core ++ ('-' :: '-' :: '>' :: rest)).drop ((core ++ ['-', '-']).length + 1))
    = some (core, rest)
  rw [List.reverse_reverse,
    show (core ++ ['-', '-']).length + 1 = (core ++ ['-', '-', '>']).length from by
      simp only [List.length_append, List.length_cons, List.length_nil],
    show core ++ ('-' :: '-' :: '>' :: rest) = (core ++ ['-', '-', '>']) ++ rest from by
      simp,
    drop_len_append]

theorem aquinAt_objM3 (rest : List Char) :
    aquinAt (objM3 ++ rest) = some (objCore3, rest) := by
  rw [show objM3 ++ rest
      = "<!--Aquin".toList ++ (objCore3 ++ ('-' :: '-' :: '>' :: rest)) from rfl]
  exact aquinAt_shape objCore3 rest (by decide)

theorem tryMarker_objM3_obj (rest : List Char) :
    tryMarker (midObjOf 3) (objM3 ++ rest) = some (1, rest) := by
  unfold tryMarker
  rw [aquinAt_objM3]
  rfl

theorem tryMarker_objM3_thes (rest : List Char) :
    tryMarker midThes (objM3 ++ rest) = none := by
  unfold tryMarker
  rw [aquinAt_objM3]
  rfl

theorem aquinAt_bodyM3 (rest : List Char) :
    aquinAt (bodyM3 ++ rest) = some (bodyCore3, rest) := by
  rw [show bodyM3 ++ rest
      = "<!--Aquin".toList ++ (bodyCore3 ++ ('-' :: '-' :: '>' :: rest)) from rfl]
  exact aquinAt_shape bodyCore3 rest (by decide)

theorem aquinAt_objM2 (rest : List Char) :
    aquinAt (objM2 ++ rest) = some (objCore2, rest) := by
  rw [show objM2 ++ rest
      = "<!--Aquin".toList ++ (objCore2 ++ ('-' :: '-' :: '>' :: rest)) from rfl]
  exact aquinAt_shape objCore2 rest (by decide)

theorem tryMarker_objM3_otc (rest : List Char) :
    tryMarker (midOtcOf 3) (objM3 ++ rest) = none := by
  unfold tryMarker
  rw [aquinAt_objM3]
  rfl

theorem tryMarker_objM3_body (rest : List Char) :
    tryMarker (midBodyOf 3) (objM3 ++ rest) = none := by
  unfold tryMarker
  rw [aquinAt_objM3]
  rfl

theorem tryMarker_objM3_ro (rest : List Char) :
    tryMarker (midRoOf 3) (objM3 ++ rest) = none := by
  unfold tryMarker
  rw [aquinAt_objM3]
  rfl

theorem tryMarker_objM3_out (rest : List Char) :
    tryMarker midOut (objM3 ++ rest) = none := by
  unfold tryMarker
  rw [aquinAt_objM3]
  rfl

theorem tryMarker_objM3_rec (rest : List Char) :
    tryMarker midRecovery (objM3 ++ rest) = some (3, rest) := by
  unfold tryMarker
  rw [aquinAt_objM3]
  rfl

theorem tryMarker_bodyM3_thes (rest : List Char) :
    tryMarker midThes (bodyM3 ++ rest) = none := by
  unfold tryMarker
  rw [aquinAt_bodyM3]
  rfl

theorem tryMarker_bodyM3_obj (rest : List Char) :
    tryMarker (midObjOf 3) (bodyM3 ++ rest) = none := by
  unfold tryMarker
  rw [aquinAt_bodyM3]
  rfl

theorem tryMarker_bodyM3_otc (rest : List Char) :
    tryMarker (midOtcOf 3) (bodyM3 ++ rest) = none := by
  unfold tryMarker
  rw [aquinAt_bodyM3]
  rfl

theorem tryMarker_bodyM3_body (rest : List Char) :
    tryMarker (midBodyOf 3) (bodyM3 ++ rest) = some ((), rest) := by
  unfold tryMarker
  rw [aquinAt_bodyM3]
  rfl

theorem tryMarker_bodyM3_ro (rest : List Char) :
    tryMarker (midRoOf 3) (bodyM3 ++ rest) = none := by
  unfold tryMarker
  rw [aquinAt_bodyM3]
  rfl

theorem tryMarker_bodyM3_out (rest : List Char) :
    tryMarker midOut (bodyM3 ++ rest) = none := by
  unfold tryMarker
  rw [aquinAt_bodyM3]
  rfl

theorem tryMarker_bodyM3_rec (rest : List Char) :
    tryMarker midRecovery (bodyM3 ++ rest) = some (3, rest) := by
  unfold tryMarker
  rw [aquinAt_bodyM3]
  rfl

theorem tryMarker_objM2_thes (rest : List Char) :
    tryMarker midThes (objM2 ++ rest) = none := by
  unfold tryMarker
  rw [aquinAt_objM2]
  rfl

theorem tryMarker_objM2_obj (rest : List Char) :
    tryMarker (midObjOf 2) (objM2 ++ rest) = some (1, rest) := by
  unfold tryMarker
  rw [aquinAt_objM2]
  rfl

theorem tryMarker_objM2_otc (rest : List Char) :
    tryMarker (midOtcOf 2) (objM2 ++ rest) = none := by
  unfold tryMarker
  rw [aquinAt_objM2]
  rfl

theorem tryMarker_objM2_body (rest : List Char) :
    tryMarker (midBodyOf 2) (objM2 ++ rest) = none := by
  unfold tryMarker
  rw [aquinAt_objM2]
  rfl

theorem tryMarker_objM2_ro (rest : List Char) :
    tryMarker (midRoOf 2) (objM2 ++ rest) = none := by
  unfold tryMarker
  rw [aquinAt_objM2]
  rfl

theorem tryMarker_objM2_out (rest : List Char) :
    tryMarker midOut (objM2 ++ rest) = none := by
  unfold tryMarker
  rw [aquinAt_objM2]
  rfl

theorem tryMarker_objM2_rec (rest : List Char) :
    tryMarker midRecovery (objM2 ++ rest) = some (2, rest) := by
  unfold tryMarker
  rw [aquinAt_objM2]
  rfl

theorem aquinPre_bodyM3 (rest : List Char) : aquinPre (bodyM3 ++ rest) = true := rfl

theorem aquinPre_objM2 (rest : List Char) : aquinPre (objM2 ++ rest) = true := rfl

theorem ciPre_h3_objM3 (rest : List Char) :
    ciPre "<h3".toList (objM3 ++ rest) = false := by
  rw [ciPre_append_left "<h3".toList objM3 rest (by decide)]
  decide

theorem ciPre_h3_bodyM3 (rest : List Char) :
    ciPre "<h3".toList (bodyM3 ++ rest) = false := by
  rw [ciPre_append_left "<h3".toList bodyM3 rest (by decide)]
  decide

theorem ciPre_h3_objM2 (rest : List Char) :
    ciPre "<h3".toList (objM2 ++ rest) = false := by
  rw [ciPre_append_left "<h3".toList objM2 rest (by decide)]
  decide

theorem treatiseAt_head_none {c : Char} {cs : List Char} (hc : c ≠ '<') :
    treatiseAt (c :: cs) = none := by
  unfold treatiseAt
  rw [openTagAt_none (show ciPre "<h3".toList (c :: cs) = false from
    ciPre_lt_head hc)]

theorem h3TopicAt_head_none {c : Char} {cs : List Char} (hc : c ≠ '<') :
    h3TopicAt (c :: cs) = none := by
  unfold h3TopicAt
  rw [openTagAt_none (show ciPre "<h3".toList (c :: cs) = false from
    ciPre_lt_head hc)]

theorem artCountAt_head_false {c : Char} {cs : List Char} (hc : c ≠ '<') :
    artCountAt (c :: cs) = false := by
  unfold artCountAt
  rw [openTagAt_none (show ciPre "<h3".toList (c :: cs) = false from
    ciPre_lt_head hc)]

theorem trRowAt_head_none {c : Char} {cs : List Char} (hc : c ≠ '<') :
    trRowAt (c :: cs) = none := by
  unfold trRowAt
  rw [openTagAt_none (show ciPre "<tr".toList (c :: cs) = false from
    ciPre_lt_head hc)]

theorem tier2At_head_none {c : Char} {cs : List Char} (hc : c ≠ '<') :
    tier2At (c :: cs) = none := by
  unfold tier2At
  rw [openTagAt_none (show ciPre "<td".toList (c :: cs) = false from
    ciPre_lt_head hc)]

theorem treatiseAt_objM3 (rest : List Char) : treatiseAt (objM3 ++ rest) = none := by
  unfold treatiseAt
  rw [openTagAt_none (ciPre_h3_objM3 rest)]

theorem treatiseAt_bodyM3 (rest : List Char) : treatiseAt (bodyM3 ++ rest) = none := by
  unfold treatiseAt
  rw [openTagAt_none (ciPre_h3_bodyM3 rest)]

theorem treatiseAt_objM2 (rest : List Char) : treatiseAt (objM2 ++ rest) = none := by
  unfold treatiseAt
  rw [openTagAt_none (ciPre_h3_objM2 rest)]

theorem h3TopicAt_objM3 (rest : List Char) : h3TopicAt (objM3 ++ rest) = none := by
  unfold h3TopicAt
  rw [openTagAt_none (ciPre_h3_objM3 rest)]

theorem h3TopicAt_bodyM3 (rest : List Char) : h3TopicAt (bodyM3 ++ rest) = none := by
  unfold h3TopicAt
  rw [openTagAt_none (ciPre_h3_bodyM3 rest)]

theorem h3TopicAt_objM2 (rest : List Char) : h3TopicAt (objM2 ++ rest) = none := by
  unfold h3TopicAt
  rw [openTagAt_none (ciPre_h3_objM2 rest)]

theorem artCountAt_objM3 (rest : List Char) : artCountAt (objM3 ++ rest) = false := by
  unfold artCountAt
  rw [openTagAt_none (ciPre_h3_objM3 rest)]

theorem artCountAt_bodyM3 (rest : List Char) : artCountAt (bodyM3 ++ rest) = false := by
  unfold artCountAt
  rw [openTagAt_none (ciPre_h3_bodyM3 rest)]

theorem artCountAt_objM2 (rest : List Char) : artCountAt (objM2 ++ rest) = false := by
  unfold artCountAt
  rw [openTagAt_none (ciPre_h3_objM2 rest)]

theorem scanFirst_cons_none {α} (f : List Char → Option α) {c : Char}
    {cs : List Char} (h : f (c :: cs) = none) :
    scanFirst f (c :: cs) = scanFirst f cs := by
  conv_lhs => unfold scanFirst
  rw [h]

theorem scanFirst_cons_some {α} (f : List Char → Option α) {c : Char}
    {cs : List Char} {a : α} (h : f (c :: cs) = some a) :
    scanFirst f (c :: cs) = some a := by
  conv_lhs => unfold scanFirst
  rw [h]

theorem scanFirst_block {α} (f : List Char → Option α)
    (hf : ∀ (c : Char) (cs : List Char), c ≠ '<' → f (c :: cs) = none) :
    ∀ (o : List Char), (∀ c ∈ o, c ≠ '<') → ∀ (rest : List Char),
      scanFirst f (o ++ rest) = scanFirst f rest
  | [], _, _ => rfl
  | c :: o, h, rest => by
    rw [List.cons_append,
      scanFirst_cons_none f (hf c (o ++ rest) (h c (List.mem_cons_self c o)))]
    exact scanFirst_block f hf o (fun d hd => h d (List.mem_cons_of_mem c hd)) rest

theorem scanFirst_none_of_block {α} (f : List Char → Option α)
    (hf : ∀ (c : Char) (cs : List Char), c ≠ '<' → f (c :: cs) = none)
    (hnil : f [] = none) :
    ∀ (o : List Char), (∀ c ∈ o, c ≠ '<') → scanFirst f o = none
  | [], _ => hnil
  | c :: o, h => by
    rw [scanFirst_cons_none f (hf c o (h c (List.mem_cons_self c o)))]
    exact scanFirst_none_of_block f hf hnil o
      (fun d hd => h d (List.mem_cons_of_mem c hd))

theorem scanFirst_marker_skip {α} (f : List Char → Option α)
    (hf : ∀ (c : Char) (cs : List Char), c ≠ '<' → f (c :: cs) = none)
    (c : Char) (t : List Char) (ht : ∀ d ∈ t, d ≠ '<') (rest : List Char)
    (hhead : f ((c :: t) ++ rest) = none) :
    scanFirst f ((c :: t) ++ rest) = scanFirst f rest := by
  show scanFirst f (c :: (t ++ rest)) = scanFirst f rest
  rw [scanFirst_cons_none f (show f (c :: (t ++ rest)) = none from hhead)]
  exact scanFirst_block f hf t ht rest

theorem scanFirst_objM3_skip {α} (f : List Char → Option α)
    (hf : ∀ (c : Char) (cs : List Char), c ≠ '<' → f (c :: cs) = none)
    (rest : List Char) (hhead : f (objM3 ++ rest) = none) :
    scanFirst f (objM3 ++ rest) = scanFirst f rest :=
  scanFirst_marker_skip f hf '<' (objM3.drop 1) (by decide) rest hhead

theorem scanFirst_bodyM3_skip {α} (f : List Char → Option α)
    (hf : ∀ (c : Char) (cs : List Char), c ≠ '<' → f (c :: cs) = none)
    (rest : List Char) (hhead : f (bodyM3 ++ rest) = none) :
    scanFirst f (bodyM3 ++ rest) = scanFirst f rest :=
  scanFirst_marker_skip f hf '<' (bodyM3.drop 1) (by decide) rest hhead

theorem scanFirst_objM2_skip {α} (f : List Char → Option α)
    (hf : ∀ (c : Char) (cs : List Char), c ≠ '<' → f (c :: cs) = none)
    (rest : List Char) (hhead : f (objM2 ++ rest) = none) :
    scanFirst f (objM2 ++ rest) = scanFirst f rest :=
  scanFirst_marker_skip f hf '<' (objM2.drop 1) (by decide) rest hhead

theorem firstMarker_eq {α} (mid : List Char → Option α) :
    ∀ l, firstMarker mid l = scanFirst (tryMarker mid) l
  | [] => rfl
  | c :: cs => by
    cases htm : tryMarker mid (c :: cs) with
    | none =>
      unfold firstMarker scanFirst
      rw [htm, firstMarker_eq mid cs]
    | some r =>
      unfold firstMarker scanFirst
      rw [htm]

theorem anyPos_cons_false {f : List Char → Bool} {c : Char} {cs : List Char}
    (h : f (c :: cs) = false) : anyPos f (c :: cs) = anyPos f cs := by
  conv_lhs => unfold anyPos
  rw [h, Bool.false_or]

theorem anyPos_block (f : List Char → Bool)
    (hf : ∀ (c : Char) (cs : List Char), c ≠ '<' → f (c :: cs) = false) :
    ∀ (o : List Char), (∀ c ∈ o, c ≠ '<') → ∀ (rest : List Char),
      anyPos f (o ++ rest) = anyPos f rest
  | [], _, _ => rfl
  | c :: o, h, rest => by
    rw [List.cons_append,
      anyPos_cons_false (hf c (o ++ rest) (h c (List.mem_cons_self c o)))]
    exact anyPos_block f hf o (fun d hd => h d (List.mem_cons_of_mem c hd)) rest

theorem anyPos_false_of_block (f : List Char → Bool)
    (hf : ∀ (c : Char) (cs : List Char), c ≠ '<' → f (c :: cs) = false)
    (hnil : f [] = false) :
    ∀ (o : List Char), (∀ c ∈ o, c ≠ '<') → anyPos f o = false
  | [], _ => hnil
  | c :: o, h => by
    rw [anyPos_cons_false (hf c o (h c (List.mem_cons_self c o)))]
    exact anyPos_false_of_block f hf hnil o
      (fun d hd => h d (List.mem_cons_of_mem c hd))

theorem anyPos_marker_skip (f : List Char → Bool)
    (hf : ∀ (c : Char) (cs : List Char), c ≠ '<' → f (c :: cs) = false)
    (c : Char) (t : List Char) (ht : ∀ d ∈ t, d ≠ '<') (rest : List Char)
    (hhead : f ((c :: t) ++ rest) = false) :
    anyPos f ((c :: t) ++ rest) = anyPos f rest := by
  show anyPos f (c :: (t ++ rest)) = anyPos f rest
  rw [anyPos_cons_false (show f (c :: (t ++ rest)) = false from hhead)]
  exact anyPos_block f hf t ht rest

theorem splitAtStop_cons_true {stop : List Char → Bool} {c : Char}
    {cs : List Char} (h : stop (c :: cs) = true) :
    splitAtStop stop (c :: cs) = ([], c :: cs) := by
  unfold splitAtStop
  rw [h, if_pos rfl]

theorem splitAtStop_cons_false {stop : List Char → Bool} {c : Char}
    {cs : List Char} (h : stop (c :: cs) = false) :
    splitAtStop stop (c :: cs)
      = (c :: (splitAtStop stop cs).1, (splitAtStop stop cs).2) := by
  conv_lhs => unfold splitAtStop
  rw [h, if_neg (by simp)]

theorem splitAtStop_block (stop : List Char → Bool)
    (hstop : ∀ (c : Char) (cs : List Char), c ≠ '<' → stop (c :: cs) = false) :
    ∀ (o : List Char), (∀ c ∈ o, c ≠ '<') → ∀ (rest : List Char),
      splitAtStop stop (o ++ rest)
        = (o ++ (splitAtStop stop rest).1, (splitAtStop stop rest).2)
  | [], _, rest => by simp
  | c :: o, h, rest => by
    rw [List.cons_append,
      splitAtStop_cons_false (hstop c (o ++ rest) (h c (List.mem_cons_self c o))),
      splitAtStop_block stop hstop o (fun d hd => h d (List.mem_cons_of_mem c hd)) rest]
    rfl

theorem contentToAquin_stop (o : List Char) (ho : ∀ c ∈ o, c ≠ '<')
    (rest : List Char) (hstop : splitAtStop aquinPre rest = ([], rest)) :
    contentToAquin (o ++ rest) = (o, rest) := by
  show splitAtStop aquinPre (o ++ rest) = (o, rest)
  rw [splitAtStop_block aquinPre (fun c cs hc => aquinPre_head_false hc) o ho rest,
    hstop]
  simp

theorem contentToAquin_all (o : List Char) (ho : ∀ c ∈ o, c ≠ '<') :
    contentToAquin o = (o, []) := by
  have h := splitAtStop_block aquinPre (fun c cs hc => aquinPre_head_false hc) o ho []
  rw [List.append_nil] at h
  show splitAtStop aquinPre o = (o, [])
  rw [h, show splitAtStop aquinPre ([] : List Char) = ([], []) from rfl]
  simp

theorem extract_no_lt (l : List Char) (h : ∀ c ∈ l, c ≠ '<') :
    extractBilingualContentL l = ⟨"", String.mk (cleanTextL l)⟩ := by
  have h1 : tier1 l = none := by
    unfold tier1
    rw [scanFirst_none_of_block trRowAt
      (fun c cs hc => trRowAt_head_none hc) rfl l h]
  have h2 : tier2 l = none := by
    unfold tier2
    rw [scanFirst_none_of_block tier2At
      (fun c cs hc => tier2At_head_none hc) rfl l h]
  unfold extractBilingualContentL
  rw [h1, h2]

theorem thesisScan_cons_none {fuel : Nat} {c : Char} {cs : List Char}
    (h : tryMarker midThes (c :: cs) = none) :
    thesisScan (fuel + 1) (c :: cs) = thesisScan fuel cs := by
  conv_lhs => unfold thesisScan
  rw [h]

theorem thesisScan_empty : ∀ fuel, thesisScan fuel [] = []
  | 0 => rfl
  | _ + 1 => rfl

theorem thesisScan_block : ∀ (o : List Char), (∀ c ∈ o, c ≠ '<') →
    ∀ (fuel : Nat) (rest : List Char),
      thesisScan (o.length + fuel) (o ++ rest) = thesisScan fuel rest
  | [], _, fuel, rest => by
    rw [show ([] : List Char).length + fuel = fuel from by simp, List.nil_append]
  | c :: o, h, fuel, rest => by
    rw [show (c :: o).length + fuel = (o.length + fuel) + 1 from by
        simp only [List.length_cons]; omega,
      List.cons_append,
      thesisScan_cons_none (tryMarker_head_none midThes (h c (List.mem_cons_self c o)))]
    exact thesisScan_block o (fun d hd => h d (List.mem_cons_of_mem c hd)) fuel rest

theorem thesisScan_all_none (o : List Char) (ho : ∀ c ∈ o, c ≠ '<') (fuel : Nat) :
    thesisScan (o.length + fuel) o = [] := by
  have h := thesisScan_block o ho fuel []
  rw [List.append_nil] at h
  rw [h, thesisScan_empty]

theorem thesisScan_marker_skip (c : Char) (t : List Char)
    (ht : ∀ d ∈ t, d ≠ '<') (fuel : Nat) (rest : List Char)
    (hhead : tryMarker midThes ((c :: t) ++ rest) = none) :
    thesisScan ((c :: t).length + fuel) ((c :: t) ++ rest) = thesisScan fuel rest := by
  rw [show (c :: t).length + fuel = (t.length + fuel) + 1 from by
      simp only [List.length_cons]; omega]
  show thesisScan ((t.length + fuel) + 1) (c :: (t ++ rest)) = thesisScan fuel rest
  rw [thesisScan_cons_none (show tryMarker midThes (c :: (t ++ rest)) = none from hhead)]
  exact thesisScan_block t ht fuel rest

theorem thesisScan_objM3 (fuel : Nat) (rest : List Char) :
    thesisScan (objM3.length + fuel) (objM3 ++ rest) = thesisScan fuel rest :=
  thesisScan_marker_skip '<' (objM3.drop 1) (by decide) fuel rest
    (tryMarker_objM3_thes rest)

theorem thesisScan_bodyM3 (fuel : Nat) (rest : List Char) :
    thesisScan (bodyM3.length + fuel) (bodyM3 ++ rest) = thesisScan fuel rest :=
  thesisScan_marker_skip '<' (bodyM3.drop 1) (by decide) fuel rest
    (tryMarker_bodyM3_thes rest)

theorem thesisScan_objM2 (fuel : Nat) (rest : List Char) :
    thesisScan (objM2.length + fuel) (objM2 ++ rest) = thesisScan fuel rest :=
  thesisScan_marker_skip '<' (objM2.drop 1) (by decide) fuel rest
    (tryMarker_objM2_thes rest)

theorem objScan_cons_none {n : Nat} {fuel : Nat} {c : Char} {cs : List Char}
    (h : tryMarker (midObjOf n) (c :: cs) = none) :
    objScan n (fuel + 1) (c :: cs) = objScan n fuel cs := by
  conv_lhs => unfold objScan
  rw [h]

theorem objScan_cons_match {n : Nat} {fuel : Nat} {c : Char} {cs : List Char}
    {k : Nat} {rest : List Char}
    (h : tryMarker (midObjOf n) (c :: cs) = some (k, rest)) :
    objScan n (fuel + 1) (c :: cs)
      = (k, (contentToAquin rest).1) :: objScan n fuel (contentToAquin rest).2 := by
  conv_lhs => unfold objScan
  rw [h]

theorem objScan_empty : ∀ (n fuel : Nat), objScan n fuel [] = []
  | _, 0 => rfl
  | _, _ + 1 => rfl

theorem objScan_block (n : Nat) : ∀ (o : List Char), (∀ c ∈ o, c ≠ '<') →
    ∀ (fuel : Nat) (rest : List Char),
      objScan n (o.length + fuel) (o ++ rest) = objScan n fuel rest
  | [], _, fuel, rest => by
    rw [show ([] : List Char).length + fuel = fuel from by simp, List.nil_append]
  | c :: o, h, fuel, rest => by
    rw [show (c :: o).length + fuel = (o.length + fuel) + 1 from by
        simp only [List.length_cons]; omega,
      List.cons_append,
      objScan_cons_none (tryMarker_head_none (midObjOf n) (h c (List.mem_cons_self c o)))]
    exact objScan_block n o (fun d hd => h d (List.mem_cons_of_mem c hd)) fuel rest

theorem objScan_all_none (n : Nat) (o : List Char) (ho : ∀ c ∈ o, c ≠ '<')
    (fuel : Nat) : objScan n (o.length + fuel) o = [] := by
  have h := objScan_block n o ho fuel []
  rw [List.append_nil] at h
  rw [h, objScan_empty]

theorem objScan_marker_skip (n : Nat) (c : Char) (t : List Char)
    (ht : ∀ d ∈ t, d ≠ '<') (fuel : Nat) (rest : List Char)
    (hhead : tryMarker (midObjOf n) ((c :: t) ++ rest) = none) :
    objScan n ((c :: t).length + fuel) ((c :: t) ++ rest) = objScan n fuel rest := by
  rw [show (c :: t).length + fuel = (t.length + fuel) + 1 from by
      simp only [List.length_cons]; omega]
  show objScan n ((t.length + fuel) + 1) (c :: (t ++ rest)) = objScan n fuel rest
  rw [objScan_cons_none (show tryMarker (midObjOf n) (c :: (t ++ rest)) = none from hhead)]
  exact objScan_block n t ht fuel rest

theorem objScan3_bodyM3 (fuel : Nat) (rest : List Char) :
    objScan 3 (bodyM3.length + fuel) (bodyM3 ++ rest) = objScan 3 fuel rest :=
  objScan_marker_skip 3 '<' (bodyM3.drop 1) (by decide) fuel rest
    (tryMarker_bodyM3_obj rest)

theorem objScan3_objM3 (fuel : Nat) (rest : List Char) :
    objScan 3 (fuel + 1) (objM3 ++ rest)
      = (1, (contentToAquin rest).1) :: objScan 3 fuel (contentToAquin rest).2 :=
  objScan_cons_match (tryMarker_objM3_obj rest)

theorem objScan2_objM2 (fuel : Nat) (rest : List Char) :
    objScan 2 (fuel + 1) (objM2 ++ rest)
      = (1, (contentToAquin rest).1) :: objScan 2 fuel (contentToAquin rest).2 :=
  objScan_cons_match (tryMarker_objM2_obj rest)

theorem roScan_cons_none {n : Nat} {fuel : Nat} {c : Char} {cs : List Char}
    (h : tryMarker (midRoOf n) (c :: cs) = none) :
    roScan n (fuel + 1) (c :: cs) = roScan n fuel cs := by
  conv_lhs => unfold roScan
  rw [h]

theorem roScan_empty : ∀ (n fuel : Nat), roScan n fuel [] = []
  | _, 0 => rfl
  | _, _ + 1 => rfl

theorem roScan_block (n : Nat) : ∀ (o : List Char), (∀ c ∈ o, c ≠ '<') →
    ∀ (fuel : Nat) (rest : List Char),
      roScan n (o.length + fuel) (o ++ rest) = roScan n fuel rest
  | [], _, fuel, rest => by
    rw [show ([] : List Char).length + fuel = fuel from by simp, List.nil_append]
  | c :: o, h, fuel, rest => by
    rw [show (c :: o).length + fuel = (o.length + fuel) + 1 from by
        simp only [List.length_cons]; omega,
      List.cons_append,
      roScan_cons_none (tryMarker_head_none (midRoOf n) (h c (List.mem_cons_self c o)))]
    exact roScan_block n o (fun d hd => h d (List.mem_cons_of_mem c hd)) fuel rest

theorem roScan_all_none (n : Nat) (o : List Char) (ho : ∀ c ∈ o, c ≠ '<')
    (fuel : Nat) : roScan n (o.length + fuel) o = [] := by
  have h := roScan_block n o ho fuel []
  rw [List.append_nil] at h
  rw [h, roScan_empty]

theorem roScan_marker_skip (n : Nat) (c : Char) (t : List Char)
    (ht : ∀ d ∈ t, d ≠ '<') (fuel : Nat) (rest : List Char)
    (hhead : tryMarker (midRoOf n) ((c :: t) ++ rest) = none) :
    roScan n ((c :: t).length + fuel) ((c :: t) ++ rest) = roScan n fuel rest := by
  rw [show (c :: t).length + fuel = (t.length + fuel) + 1 from by
      simp only [List.length_cons]; omega]
  show roScan n ((t.length + fuel) + 1) (c :: (t ++ rest)) = roScan n fuel rest
  rw [roScan_cons_none (show tryMarker (midRoOf n) (c :: (t ++ rest)) = none from hhead)]
  exact roScan_block n t ht fuel rest

theorem roScan3_objM3 (fuel : Nat) (rest : List Char) :
    roScan 3 (objM3.length + fuel) (objM3 ++ rest) = roScan 3 fuel rest :=
  roScan_marker_skip 3 '<' (objM3.drop 1) (by decide) fuel rest
    (tryMarker_objM3_ro rest)

theorem roScan3_bodyM3 (fuel : Nat) (rest : List Char) :
    roScan 3 (bodyM3.length + fuel) (bodyM3 ++ rest) = roScan 3 fuel rest :=
  roScan_marker_skip 3 '<' (bodyM3.drop 1) (by decide) fuel rest
    (tryMarker_bodyM3_ro rest)

theorem roScan2_objM2 (fuel : Nat) (rest : List Char) :
    roScan 2 (objM2.length + fuel) (objM2 ++ rest) = roScan 2 fuel rest :=
  roScan_marker_skip 2 '<' (objM2.drop 1) (by decide) fuel rest
    (tryMarker_objM2_ro rest)

theorem recScan_cons_none {fuel : Nat} {c : Char} {cs : List Char}
    (h : tryMarker midRecovery (c :: cs) = none) :
    recScan (fuel + 1) (c :: cs) = recScan fuel cs := by
  conv_lhs => unfold recScan
  rw [h]

theorem recScan_cons_match {fuel : Nat} {c : Char} {cs : List Char}
    {n : Nat} {rest : List Char}
    (h : tryMarker midRecovery (c :: cs) = some (n, rest)) :
    recScan (fuel + 1) (c :: cs) = n :: recScan fuel rest := by
  conv_lhs => unfold recScan
  rw [h]

theorem recScan_empty : ∀ fuel, recScan fuel [] = []
  | 0 => rfl
  | _ + 1 => rfl

theorem recScan_block : ∀ (o : List Char), (∀ c ∈ o, c ≠ '<') →
    ∀ (fuel : Nat) (rest : List Char),
      recScan (o.length + fuel) (o ++ rest) = recScan fuel rest
  | [], _, fuel, rest => by
    rw [show ([] : List Char).length + fuel = fuel from by simp, List.nil_append]
  | c :: o, h, fuel, rest => by
    rw [show (c :: o).length + fuel = (o.length + fuel) + 1 from by
        simp only [List.length_cons]; omega,
      List.cons_append,
      recScan_cons_none (tryMarker_head_none midRecovery (h c (List.mem_cons_self c o)))]
    exact recScan_block o (fun d hd => h d (List.mem_cons_of_mem c hd)) fuel rest

theorem recScan_all_none (o : List Char) (ho : ∀ c ∈ o, c ≠ '<') (fuel : Nat) :
    recScan (o.length + fuel) o = [] := by
  have h := recScan_block o ho fuel []
  rw [List.append_nil] at h
  rw [h, recScan_empty]

theorem recScan_objM3 (fuel : Nat) (rest : List Char) :
    recScan (fuel + 1) (objM3 ++ rest) = 3 :: recScan fuel rest :=
  recScan_cons_match (tryMarker_objM3_rec rest)

theorem recScan_bodyM3 (fuel : Nat) (rest : List Char) :
    recScan (fuel + 1) (bodyM3 ++ rest) = 3 :: recScan fuel rest :=
  recScan_cons_match (tryMarker_bodyM3_rec rest)

theorem recScan_objM2 (fuel : Nat) (rest : List Char) :
    recScan (fuel + 1) (objM2 ++ rest) = 2 :: recScan fuel rest :=
  recScan_cons_match (tryMarker_objM2_rec rest)



theorem anyPos_objM3_skip (f : List Char → Bool)
    (hf : ∀ (c : Char) (cs : List Char), c ≠ '<' → f (c :: cs) = false)
    (rest : List Char) (hhead : f (objM3 ++ rest) = false) :
    anyPos f (objM3 ++ rest) = anyPos f rest :=
  anyPos_marker_skip f hf '<' (objM3.drop 1) (by decide) rest hhead

theorem anyPos_bodyM3_skip (f : List Char → Bool)
    (hf : ∀ (c : Char) (cs : List Char), c ≠ '<' → f (c :: cs) = false)
    (rest : List Char) (hhead : f (bodyM3 ++ rest) = false) :
    anyPos f (bodyM3 ++ rest) = anyPos f rest :=
  anyPos_marker_skip f hf '<' (bodyM3.drop 1) (by decide) rest hhead

theorem anyPos_objM2_skip (f : List Char → Bool)
    (hf : ∀ (c : Char) (cs : List Char), c ≠ '<' → f (c :: cs) = false)
    (rest : List Char) (hhead : f (objM2 ++ rest) = false) :
    anyPos f (objM2 ++ rest) = anyPos f rest :=
  anyPos_marker_skip f hf '<' (objM2.drop 1) (by decide) rest hhead

theorem recDoc_scanFirst_none {α} (f : List Char → Option α)
    (hf : ∀ (c : Char) (cs : List Char), c ≠ '<' → f (c :: cs) = none)
    (hnil : f [] = none) (oL bL : List Char)
    (ho : ∀ c ∈ oL, c ≠ '<') (hb : ∀ c ∈ bL, c ≠ '<')
    (h1 : f (objM3 ++ (oL ++ (bodyM3 ++ bL))) = none)
    (h2 : f (bodyM3 ++ bL) = none) :
    scanFirst f (objM3 ++ (oL ++ (bodyM3 ++ bL))) = none := by
  rw [scanFirst_objM3_skip f hf (oL ++ (bodyM3 ++ bL)) h1,
    scanFirst_block f hf oL ho (bodyM3 ++ bL),
    scanFirst_bodyM3_skip f hf bL h2]
  exact scanFirst_none_of_block f hf hnil bL hb

theorem parse_recDoc (oL bL : List Char)
    (ho : ∀ c ∈ oL, c ≠ '<') (hb : ∀ c ∈ bL, c ≠ '<') :
    parseQuestionFileL (objM3 ++ (oL ++ (bodyM3 ++ bL))) "FP" 2 =
      { part := "FP", question := 2, title := "Question 2",
        prologue := ⟨"", ""⟩,
        articles := [{
          part := "FP"
          question := 2
          article := 3
          title := ""
          thesis := ⟨"", ""⟩
          objections := [⟨1, "", String.mk (cleanTextL oL)⟩]
          sedContra := ⟨"", ""⟩
          respondeo := ⟨"", String.mk (cleanTextL bL)⟩
          replies := [] }] } := by
  have l1 : objM3.length = 48 := rfl
  have l2 : bodyM3.length = 46 := rfl
  have htreat : scanFirst treatiseAt (objM3 ++ (oL ++ (bodyM3 ++ bL))) = none :=
    recDoc_scanFirst_none treatiseAt (fun c cs hc => treatiseAt_head_none hc) rfl
      oL bL ho hb (treatiseAt_objM3 (oL ++ (bodyM3 ++ bL))) (treatiseAt_bodyM3 bL)
  have hh3 : scanFirst h3TopicAt (objM3 ++ (oL ++ (bodyM3 ++ bL))) = none :=
    recDoc_scanFirst_none h3TopicAt (fun c cs hc => h3TopicAt_head_none hc) rfl
      oL bL ho hb (h3TopicAt_objM3 (oL ++ (bodyM3 ++ bL))) (h3TopicAt_bodyM3 bL)
  have htitle : questionTitleL (objM3 ++ (oL ++ (bodyM3 ++ bL))) 2
      = ("Question " ++ toString (2 : Int)).toList := by
    unfold questionTitleL
    rw [htreat, hh3]
  have hout : firstMarker midOut (objM3 ++ (oL ++ (bodyM3 ++ bL))) = none := by
    rw [firstMarker_eq]
    exact recDoc_scanFirst_none (tryMarker midOut)
      (fun c cs hc => tryMarker_head_none midOut hc) rfl oL bL ho hb
      (tryMarker_objM3_out (oL ++ (bodyM3 ++ bL))) (tryMarker_bodyM3_out bL)
  have hotc : firstMarker (midOtcOf 3) (objM3 ++ (oL ++ (bodyM3 ++ bL))) = none := by
    rw [firstMarker_eq]
    exact recDoc_scanFirst_none (tryMarker (midOtcOf 3))
      (fun c cs hc => tryMarker_head_none (midOtcOf 3) hc) rfl oL bL ho hb
      (tryMarker_objM3_otc (oL ++ (bodyM3 ++ bL))) (tryMarker_bodyM3_otc bL)
  have hbody : firstMarker (midBodyOf 3) (objM3 ++ (oL ++ (bodyM3 ++ bL)))
      = some ((), bL) := by
    rw [firstMarker_eq]
    rw [scanFirst_objM3_skip (tryMarker (midBodyOf 3))
        (fun c cs hc => tryMarker_head_none (midBodyOf 3) hc)
        (oL ++ (bodyM3 ++ bL)) (tryMarker_objM3_body (oL ++ (bodyM3 ++ bL))),
      scanFirst_block (tryMarker (midBodyOf 3))
        (fun c cs hc => tryMarker_head_none (midBodyOf 3) hc) oL ho (bodyM3 ++ bL)]
    exact scanFirst_cons_some (tryMarker (midBodyOf 3))
      (show tryMarker (midBodyOf 3) (bodyM3 ++ bL) = some ((), bL) from
        tryMarker_bodyM3_body bL)
  have hthes : thesisScan ((objM3 ++ (oL ++ (bodyM3 ++ bL))).length + 1)
      (objM3 ++ (oL ++ (bodyM3 ++ bL))) = [] := by
    rw [show (objM3 ++ (oL ++ (bodyM3 ++ bL))).length + 1
        = objM3.length + (oL.length + (bodyM3.length + (bL.length + 1))) from by
      simp only [List.length_append]; omega]
    rw [thesisScan_objM3, thesisScan_block oL ho, thesisScan_bodyM3]
    exact thesisScan_all_none bL hb 1
  have hrecs : recScan ((objM3 ++ (oL ++ (bodyM3 ++ bL))).length + 1)
      (objM3 ++ (oL ++ (bodyM3 ++ bL))) = [3, 3] := by
    rw [show (objM3 ++ (oL ++ (bodyM3 ++ bL))).length + 1
        = (oL.length + ((bL.length + 93) + 1)) + 1 from by
      simp only [List.length_append]; omega]
    rw [recScan_objM3, recScan_block oL ho, recScan_bodyM3,
      recScan_all_none bL hb 93]
  have hcta1 : contentToAquin (oL ++ (bodyM3 ++ bL)) = (oL, bodyM3 ++ bL) := by
    have hstop : splitAtStop aquinPre (bodyM3 ++ bL) = ([], bodyM3 ++ bL) :=
      splitAtStop_cons_true (aquinPre_bodyM3 bL)
    exact contentToAquin_stop oL ho (bodyM3 ++ bL) hstop
  have hcta2 : contentToAquin bL = (bL, []) := contentToAquin_all bL hb
  have hobj : objScan 3 ((objM3 ++ (oL ++ (bodyM3 ++ bL))).length + 1)
      (objM3 ++ (oL ++ (bodyM3 ++ bL))) = [(1, oL)] := by
    rw [show (objM3 ++ (oL ++ (bodyM3 ++ bL))).length + 1
        = (bodyM3.length + (bL.length + (oL.length + 48))) + 1 from by
      simp only [List.length_append]; omega]
    rw [objScan3_objM3, hcta1]
    simp only
    rw [objScan3_bodyM3, objScan_all_none 3 bL hb (oL.length + 48)]
  have hro : roScan 3 ((objM3 ++ (oL ++ (bodyM3 ++ bL))).length + 1)
      (objM3 ++ (oL ++ (bodyM3 ++ bL))) = [] := by
    rw [show (objM3 ++ (oL ++ (bodyM3 ++ bL))).length + 1
        = objM3.length + (oL.length + (bodyM3.length + (bL.length + 1))) from by
      simp only [List.length_append]; omega]
    rw [roScan3_objM3, roScan_block 3 oL ho, roScan3_bodyM3]
    exact roScan_all_none 3 bL hb 1
  have hart : hasArtCountHeader (objM3 ++ (oL ++ (bodyM3 ++ bL))) = false := by
    show anyPos artCountAt (objM3 ++ (oL ++ (bodyM3 ++ bL))) = false
    rw [anyPos_objM3_skip artCountAt (fun c cs hc => artCountAt_head_false hc)
        (oL ++ (bodyM3 ++ bL)) (artCountAt_objM3 (oL ++ (bodyM3 ++ bL))),
      anyPos_block artCountAt (fun c cs hc => artCountAt_head_false hc) oL ho
        (bodyM3 ++ bL),
      anyPos_bodyM3_skip artCountAt (fun c cs hc => artCountAt_head_false hc)
        bL (artCountAt_bodyM3 bL)]
    exact anyPos_false_of_block artCountAt
      (fun c cs hc => artCountAt_head_false hc) rfl bL hb
  have hxo : extractBilingualContentL oL = ⟨"", String.mk (cleanTextL oL)⟩ :=
    extract_no_lt oL ho
  have hxb : extractBilingualContentL bL = ⟨"", String.mk (cleanTextL bL)⟩ :=
    extract_no_lt bL hb
  have hobjsOf : objectionsOf (objM3 ++ (oL ++ (bodyM3 ++ bL))) 3
      = [⟨1, "", String.mk (cleanTextL oL)⟩] := by
    unfold objectionsOf
    rw [hobj]
    simp only [List.map_cons, List.map_nil]
    rw [hxo]
  have hsedOf : sedContraOf (objM3 ++ (oL ++ (bodyM3 ++ bL))) 3 = ⟨"", ""⟩ := by
    unfold sedContraOf
    rw [hotc]
  have hrespOf : respondeoOf (objM3 ++ (oL ++ (bodyM3 ++ bL))) 3
      = ⟨"", String.mk (cleanTextL bL)⟩ := by
    unfold respondeoOf
    rw [hbody]
    show extractBilingualContentL (contentToAquin bL).1
      = ⟨"", String.mk (cleanTextL bL)⟩
    rw [hcta2]
    exact hxb
  have hrepOf : repliesOf (objM3 ++ (oL ++ (bodyM3 ++ bL))) 3 = [] := by
    unfold repliesOf
    rw [hro]
    rfl
  have hrecArt : recoveryArticle (objM3 ++ (oL ++ (bodyM3 ++ bL))) "FP" 2 3
      = { part := "FP", question := 2, article := 3, title := "",
          thesis := ⟨"", ""⟩,
          objections := [⟨1, "", String.mk (cleanTextL oL)⟩],
          sedContra := ⟨"", ""⟩,
          respondeo := ⟨"", String.mk (cleanTextL bL)⟩,
          replies := [] } := by
    unfold recoveryArticle
    rw [hart, hobjsOf, hsedOf, hrespOf, hrepOf]
    rfl
  unfold parseQuestionFileL
  rw [htitle, hout, hthes, hrecs]
  simp only [List.map_nil, List.map_cons, List.contains_nil, Bool.not_false,
    List.filter_true, List.nil_append]
  rw [show dedupF [3, 3] = [3] from rfl]
  simp only [List.map_cons, List.map_nil]
  rw [hrecArt]
  rfl

theorem dupDoc_scanFirst_none {α} (f : List Char → Option α)
    (hf : ∀ (c : Char) (cs : List Char), c ≠ '<' → f (c :: cs) = none)
    (hnil : f [] = none) (t1L t2L : List Char)
    (h1 : ∀ c ∈ t1L, c ≠ '<') (h2 : ∀ c ∈ t2L, c ≠ '<')
    (hm1 : f (objM2 ++ (t1L ++ (objM2 ++ t2L))) = none)
    (hm2 : f (objM2 ++ t2L) = none) :
    scanFirst f (objM2 ++ (t1L ++ (objM2 ++ t2L))) = none := by
  rw [scanFirst_objM2_skip f hf (t1L ++ (objM2 ++ t2L)) hm1,
    scanFirst_block f hf t1L h1 (objM2 ++ t2L),
    scanFirst_objM2_skip f hf t2L hm2]
  exact scanFirst_none_of_block f hf hnil t2L h2

theorem parse_dupDoc (t1L t2L : List Char)
    (h1 : ∀ c ∈ t1L, c ≠ '<') (h2 : ∀ c ∈ t2L, c ≠ '<') :
    parseQuestionFileL (objM2 ++ (t1L ++ (objM2 ++ t2L))) "FP" 5 =
      { part := "FP", question := 5, title := "Question 5",
        prologue := ⟨"", ""⟩,
        articles := [{
          part := "FP"
          question := 5
          article := 2
          title := ""
          thesis := ⟨"", ""⟩
          objections := [⟨1, "", String.mk (cleanTextL t1L)⟩,
            ⟨1, "", String.mk (cleanTextL t2L)⟩]
          sedContra := ⟨"", ""⟩
          respondeo := ⟨"", ""⟩
          replies := [] }] } := by
  have l1 : objM2.length = 38 := rfl
  have htreat : scanFirst treatiseAt (objM2 ++ (t1L ++ (objM2 ++ t2L))) = none :=
    dupDoc_scanFirst_none treatiseAt (fun c cs hc => treatiseAt_head_none hc) rfl
      t1L t2L h1 h2 (treatiseAt_objM2 (t1L ++ (objM2 ++ t2L))) (treatiseAt_objM2 t2L)
  have hh3 : scanFirst h3TopicAt (objM2 ++ (t1L ++ (objM2 ++ t2L))) = none :=
    dupDoc_scanFirst_none h3TopicAt (fun c cs hc => h3TopicAt_head_none hc) rfl
      t1L t2L h1 h2 (h3TopicAt_objM2 (t1L ++ (objM2 ++ t2L))) (h3TopicAt_objM2 t2L)
  have htitle : questionTitleL (objM2 ++ (t1L ++ (objM2 ++ t2L))) 5
      = ("Question " ++ toString (5 : Int)).toList := by
    unfold questionTitleL
    rw [htreat, hh3]
  have hout : firstMarker midOut (objM2 ++ (t1L ++ (objM2 ++ t2L))) = none := by
    rw [firstMarker_eq]
    exact dupDoc_scanFirst_none (tryMarker midOut)
      (fun c cs hc => tryMarker_head_none midOut hc) rfl t1L t2L h1 h2
      (tryMarker_objM2_out (t1L ++ (objM2 ++ t2L))) (tryMarker_objM2_out t2L)
  have hotc : firstMarker (midOtcOf 2) (objM2 ++ (t1L ++ (objM2 ++ t2L))) = none := by
    rw [firstMarker_eq]
    exact dupDoc_scanFirst_none (tryMarker (midOtcOf 2))
      (fun c cs hc => tryMarker_head_none (midOtcOf 2) hc) rfl t1L t2L h1 h2
      (tryMarker_objM2_otc (t1L ++ (objM2 ++ t2L))) (tryMarker_objM2_otc t2L)
  have hbody : firstMarker (midBodyOf 2) (objM2 ++ (t1L ++ (objM2 ++ t2L))) = none := by
    rw [firstMarker_eq]
    exact dupDoc_scanFirst_none (tryMarker (midBodyOf 2))
      (fun c cs hc => tryMarker_head_none (midBodyOf 2) hc) rfl t1L t2L h1 h2
      (tryMarker_objM2_body (t1L ++ (objM2 ++ t2L))) (tryMarker_objM2_body t2L)
  have hthes : thesisScan ((objM2 ++ (t1L ++ (objM2 ++ t2L))).length + 1)
      (objM2 ++ (t1L ++ (objM2 ++ t2L))) = [] := by
    rw [show (objM2 ++ (t1L ++ (objM2 ++ t2L))).length + 1
        = objM2.length + (t1L.length + (objM2.length + (t2L.length + 1))) from by
      simp only [List.length_append]; omega]
    rw [thesisScan_objM2, thesisScan_block t1L h1, thesisScan_objM2]
    exact thesisScan_all_none t2L h2 1
  have hrecs : recScan ((objM2 ++ (t1L ++ (objM2 ++ t2L))).length + 1)
      (objM2 ++ (t1L ++ (objM2 ++ t2L))) = [2, 2] := by
    rw [show (objM2 ++ (t1L ++ (objM2 ++ t2L))).length + 1
        = (t1L.length + ((t2L.length + 75) + 1)) + 1 from by
      simp only [List.length_append]; omega]
    rw [recScan_objM2, recScan_block t1L h1, recScan_objM2,
      recScan_all_none t2L h2 75]
  have hcta1 : contentToAquin (t1L ++ (objM2 ++ t2L)) = (t1L, objM2 ++ t2L) := by
    have hstop : splitAtStop aquinPre (objM2 ++ t2L) = ([], objM2 ++ t2L) :=
      splitAtStop_cons_true (aquinPre_objM2 t2L)
    exact contentToAquin_stop t1L h1 (objM2 ++ t2L) hstop
  have hcta2 : contentToAquin t2L = (t2L, []) := contentToAquin_all t2L h2
  have hobj : objScan 2 ((objM2 ++ (t1L ++ (objM2 ++ t2L))).length + 1)
      (objM2 ++ (t1L ++ (objM2 ++ t2L))) = [(1, t1L), (1, t2L)] := by
    rw [objScan2_objM2, hcta1]
    simp only
    rw [show (objM2 ++ (t1L ++ (objM2 ++ t2L))).length
        = (t1L.length + (t2L.length + 75)) + 1 from by
      simp only [List.length_append]; omega]
    rw [objScan2_objM2, hcta2]
    simp only
    rw [objScan_empty]
  have hro : roScan 2 ((objM2 ++ (t1L ++ (objM2 ++ t2L))).length + 1)
      (objM2 ++ (t1L ++ (objM2 ++ t2L))) = [] := by
    rw [show (objM2 ++ (t1L ++ (objM2 ++ t2L))).length + 1
        = objM2.length + (t1L.length + (objM2.length + (t2L.length + 1))) from by
      simp only [List.length_append]; omega]
    rw [roScan2_objM2, roScan_block 2 t1L h1, roScan2_objM2]
    exact roScan_all_none 2 t2L h2 1
  have hart : hasArtCountHeader (objM2 ++ (t1L ++ (objM2 ++ t2L))) = false := by
    show anyPos artCountAt (objM2 ++ (t1L ++ (objM2 ++ t2L))) = false
    rw [anyPos_objM2_skip artCountAt (fun c cs hc => artCountAt_head_false hc)
        (t1L ++ (objM2 ++ t2L)) (artCountAt_objM2 (t1L ++ (objM2 ++ t2L))),
      anyPos_block artCountAt (fun c cs hc => artCountAt_head_false hc) t1L h1
        (objM2 ++ t2L),
      anyPos_objM2_skip artCountAt (fun c cs hc => artCountAt_head_false hc)
        t2L (artCountAt_objM2 t2L)]
    exact anyPos_false_of_block artCountAt
      (fun c cs hc => artCountAt_head_false hc) rfl t2L h2
  have hx1 : extractBilingualContentL t1L = ⟨"", String.mk (cleanTextL t1L)⟩ :=
    extract_no_lt t1L h1
  have hx2 : extractBilingualContentL t2L = ⟨"", String.mk (cleanTextL t2L)⟩ :=
    extract_no_lt t2L h2
  have hobjsOf : objectionsOf (objM2 ++ (t1L ++ (objM2 ++ t2L))) 2
      = [⟨1, "", String.mk (cleanTextL t1L)⟩, ⟨1, "", String.mk (cleanTextL t2L)⟩] := by
    unfold objectionsOf
    rw [hobj]
    simp only [List.map_cons, List.map_nil]
    rw [hx1, hx2]
  have hsedOf : sedContraOf (objM2 ++ (t1L ++ (objM2 ++ t2L))) 2 = ⟨"", ""⟩ := by
    unfold sedContraOf
    rw [hotc]
  have hrespOf : respondeoOf (objM2 ++ (t1L ++ (objM2 ++ t2L))) 2 = ⟨"", ""⟩ := by
    unfold respondeoOf
    rw [hbody]
  have hrepOf : repliesOf (objM2 ++ (t1L ++ (objM2 ++ t2L))) 2 = [] := by
    unfold repliesOf
    rw [hro]
    rfl
  have hrecArt : recoveryArticle (objM2 ++ (t1L ++ (objM2 ++ t2L))) "FP" 5 2
      = { part := "FP", question := 5, article := 2, title := "",
          thesis := ⟨"", ""⟩,
          objections := [⟨1, "", String.mk (cleanTextL t1L)⟩,
            ⟨1, "", String.mk (cleanTextL t2L)⟩],
          sedContra := ⟨"", ""⟩, respondeo := ⟨"", ""⟩,
          replies := [] } := by
    unfold recoveryArticle
    rw [hart, hobjsOf, hsedOf, hrespOf, hrepOf]
    rfl
  unfold parseQuestionFileL
  rw [htitle, hout, hthes, hrecs]
  simp only [List.map_nil, List.map_cons, List.contains_nil, Bool.not_false,
    List.filter_true, List.nil_append]
  rw [show dedupF [2, 2] = [2] from rfl]
  simp only [List.map_cons, List.map_nil]
  rw [hrecArt]
  rfl

theorem recoveryDoc_toList (o b : String) :
    (recoveryDoc o b).toList = objM3 ++ (o.toList ++ (bodyM3 ++ b.toList)) := by
  show (("<!--Aquin.: SMT FP Q[2] A[3] Obj. 1 Para. 1/1-->" ++ o ++
      ("<!--Aquin.: SMT FP Q[2] A[3] Body Para. 1/2-->" ++ b)) : String).data
    = objM3 ++ (o.toList ++ (bodyM3 ++ b.toList))
  simp only [String.data_append, objM3, bodyM3, String.toList, List.append_assoc]

theorem dupObjDoc_toList (t1 t2 : String) :
    (dupObjDoc t1 t2).toList = objM2 ++ (t1.toList ++ (objM2 ++ t2.toList)) := by
  show (("<!--Aquin.: SMT FP Q[5] A[2] Obj. 1-->" ++ t1 ++
      ("<!--Aquin.: SMT FP Q[5] A[2] Obj. 1-->" ++ t2)) : String).data
    = objM2 ++ (t1.toList ++ (objM2 ++ t2.toList))
  simp only [String.data_append, objM2, String.toList, List.append_assoc]

/-- Claim C4 (recovery completeness): for every document consisting of an
objection marker and a body marker for article 3 around arbitrary
marker-free texts (no `<` in either), the parse yields exactly one article,
numbered 3, with an empty thesis, the cleaned objection text as objection 1,
and the cleaned body text as the respondeo — non-empty exactly when the
cleaned body text is. -/
theorem recovery_completeness (o b : String)
    (ho : ∀ c ∈ o.toList, c ≠ '<') (hb : ∀ c ∈ b.toList, c ≠ '<') :
    parseQuestionFile (recoveryDoc o b) "FP" 2 =
      { part := "FP", question := 2, title := "Question 2",
        prologue := ⟨"", ""⟩,
        articles := [{
          part := "FP"
          question := 2
          article := 3
          title := ""
          thesis := ⟨"", ""⟩
          objections := [⟨1, "", cleanText o⟩]
          sedContra := ⟨"", ""⟩
          respondeo := ⟨"", cleanText b⟩
          replies := [] }] } := by
  show parseQuestionFileL (recoveryDoc o b).toList "FP" 2 = _
  rw [recoveryDoc_toList]
  exact parse_recDoc o.toList b.toList ho hb

/-- Witness for C4 at the spec's concrete recovery scenario. -/
theorem recovery_completeness_witness :
    parseQuestionFile (recoveryDoc "Objection text here" "I answer that it is so")
        "FP" 2 =
      { part := "FP", question := 2, title := "Question 2",
        prologue := ⟨"", ""⟩,
        articles := [{
          part := "FP"
          question := 2
          article := 3
          title := ""
          thesis := ⟨"", ""⟩
          objections := [⟨1, "", "Objection text here"⟩]
          sedContra := ⟨"", ""⟩
          respondeo := ⟨"", "I answer that it is so"⟩
          replies := [] }] } :=
  recovery_completeness "Objection text here" "I answer that it is so"
    (by decide) (by decide)

/-- Claim C8: for every document carrying the same `Obj. 1` marker for
article 2 twice, around arbitrary marker-free texts, both objection entries
are kept — both numbered 1, in source order, undeduplicated. -/
theorem duplicate_objections_kept (t1 t2 : String)
    (h1 : ∀ c ∈ t1.toList, c ≠ '<') (h2 : ∀ c ∈ t2.toList, c ≠ '<') :
    parseQuestionFile (dupObjDoc t1 t2) "FP" 5 =
      { part := "FP", question := 5, title := "Question 5",
        prologue := ⟨"", ""⟩,
        articles := [{
          part := "FP"
          question := 5
          article := 2
          title := ""
          thesis := ⟨"", ""⟩
          objections := [⟨1, "", cleanText t1⟩, ⟨1, "", cleanText t2⟩]
          sedContra := ⟨"", ""⟩
          respondeo := ⟨"", ""⟩
          replies := [] }] } := by
  show parseQuestionFileL (dupObjDoc t1 t2).toList "FP" 5 = _
  rw [dupObjDoc_toList]
  exact parse_dupDoc t1.toList t2.toList h1 h2

/-- Witness for C8 at the spec's concrete duplicate-objection scenario. -/
theorem duplicate_objections_kept_witness :
    parseQuestionFile (dupObjDoc "First objection" "Second objection") "FP" 5 =
      { part := "FP", question := 5, title := "Question 5",
        prologue := ⟨"", ""⟩,
        articles := [{
          part := "FP"
          question := 5
          article := 2
          title := ""
          thesis := ⟨"", ""⟩
          objections := [⟨1, "", "First objection"⟩, ⟨1, "", "Second objection"⟩]
          sedContra := ⟨"", ""⟩
          respondeo := ⟨"", ""⟩
          replies := [] }] } :=
  duplicate_objections_kept "First objection" "Second objection"
    (by decide) (by decide)


end Summa
